import Mathlib

/-!
# tryfiles: a try-files HTTP handler

Shallow embedding of `tryfiles.go`.

* The real response sink (`http.ResponseWriter` handed in by the server) is a record of its
  header map and of the `WriteHeader` / `Write` calls it has received, oldest first.
* Code outside the package that writes to a sink (`http.FileServer(..).ServeHTTP`,
  `http.ServeContent`, the terminal handler) is a `SinkProg`: a tree of sink calls whose
  continuation may depend on what each call returned.
* A call through a nil interface is a run-time panic in Go; here it is the result `none`.
* `ServeHTTP` threads the pool of shadow sinks and a trace of the collaborator calls it makes.
-/

namespace tryfiles

/-! ## Data model -/

/-- Header map `http.Header`, as an association list from canonical key to values. -/
structure Header where
  entries : List (String × List String)
deriving DecidableEq, Repr

/-- Go `Header.Del` for a key written in canonical form: the entry is removed. -/
def Header.Del (h : Header) (key : String) : Header :=
  ⟨h.entries.filter (fun kv => kv.1 != key)⟩

/-- Go `Header.Set` for a key written in canonical form: the entry is replaced by one value. -/
def Header.Set (h : Header) (key value : String) : Header :=
  ⟨(h.Del key).entries ++ [(key, [value])]⟩

/-- Values stored under a key, `none` when the map has no such key. -/
def Header.Values (h : Header) (key : String) : Option (List String) :=
  (h.entries.find? (fun kv => kv.1 == key)).map (fun kv => kv.2)

/-- Whether the map holds the key. -/
def Header.Has (h : Header) (key : String) : Bool :=
  h.entries.any (fun kv => kv.1 == key)

/-- Result `(n int, err error)` of a `Write`. -/
structure WriteResult where
  n : Int
  err : Option String
deriving DecidableEq, Repr

/-- One call received by the real sink. -/
inductive SinkCall where
  | WriteHeader (statusCode : Int)
  | Write (data : String)
deriving DecidableEq, Repr

/-- The real response sink: its header map and the calls it has received, oldest first. -/
structure RealSink where
  header : Header
  calls : List SinkCall
deriving DecidableEq, Repr

/-- Filesystem error with what `errors.Is` answers for the two sentinel errors. -/
structure FsError where
  isNotExist : Bool
  isPermission : Bool
  msg : String
deriving DecidableEq, Repr

/-- Result of `File.Stat`, reduced to what the handler reads. -/
structure FileInfo where
  ModTime : Nat
deriving DecidableEq, Repr

/-- An opened `http.File`. -/
structure File where
  name : String
  content : String
  Stat : Except FsError FileInfo

/-- The `http.FileSystem` interface: `Open(name)`. -/
abbrev FileSystem := String → Except FsError File

/-- The `*url.URL` fields the package reads. -/
structure URL where
  Path : String
  RawPath : String
deriving DecidableEq, Repr

/-- The `*http.Request` fields the package reads. -/
structure Request where
  Method : String
  URL : URL
deriving DecidableEq, Repr

/-- A program of sink calls: what a collaborator does with the sink it is handed.
`header f k` reads the header map, replaces it by `f` of it and goes on with `k` of the map read. -/
inductive SinkProg where
  | ret : SinkProg
  | header (f : Header → Header) (k : Header → SinkProg) : SinkProg
  | writeHeader (statusCode : Int) (k : SinkProg) : SinkProg
  | write (data : String) (k : WriteResult → SinkProg) : SinkProg

/-- The shadow sink `no404w`: the embedded sink (nil once released) and the recorded status. -/
structure no404w where
  ResponseWriter : Option RealSink
  status : Int
deriving DecidableEq, Repr

/-- A value of interface type `http.ResponseWriter` as `ServeHTTP` and `wGet` can receive it. -/
inductive Writer where
  | nil
  | real (rs : RealSink)
  | shadow (n : no404w)
deriving DecidableEq, Repr

/-- The free list behind `wPool`. -/
abbrev Pool := List no404w

/-- Collaborators outside the package, and the real sink's answer to `Write`. -/
structure Env where
  FileServer : Option FileSystem → Request → SinkProg
  ServeContent : Request → String → Nat → File → SinkProg
  writeResult : RealSink → String → WriteResult

/-- Calls `ServeHTTP` makes to the pool, the filesystem and its collaborators, in order.
A sink argument is the sink as it was when the call was made. -/
inductive Event where
  | next (w : Writer) (r : Request)
  | wGet (fresh : Bool)
  | wPut
  | FileServer (n : no404w) (r : Request)
  | HeaderDel (key : String)
  | Open (name : String)
  | Stat (name : String)
  | Close (name : String)
  | ServeContent (w : Writer) (r : Request) (name : String) (modtime : Nat) (f : File)
  | Error (w : Writer) (error : String) (code : Int)

/-- Pool and trace threaded through a request. -/
structure State where
  pool : Pool
  trace : List Event

/-- Append one event to the trace. -/
def State.log (s : State) (e : Event) : State :=
  { s with trace := s.trace ++ [e] }

/-- The handler configuration `Handler`. -/
structure Handler where
  fs : Option FileSystem
  trys : List String
  next : Option (Request → SinkProg)
  rMod : Option (Request → Request)

/-! ## Library functions the package calls -/

/-- Constant `http.StatusNotFound`. -/
def http.StatusNotFound : Int := 404

/-- Constant `http.StatusForbidden`. -/
def http.StatusForbidden : Int := 403

/-- Constant `http.StatusInternalServerError`. -/
def http.StatusInternalServerError : Int := 500

/-- Table behind `http.StatusText`. -/
def http.statusTable : List (Int × String) :=
  [(100, "Continue"), (101, "Switching Protocols"), (102, "Processing"), (103, "Early Hints"),
   (200, "OK"), (201, "Created"), (202, "Accepted"), (203, "Non-Authoritative Information"),
   (204, "No Content"), (205, "Reset Content"), (206, "Partial Content"), (207, "Multi-Status"),
   (208, "Already Reported"), (226, "IM Used"),
   (300, "Multiple Choices"), (301, "Moved Permanently"), (302, "Found"), (303, "See Other"),
   (304, "Not Modified"), (305, "Use Proxy"), (307, "Temporary Redirect"),
   (308, "Permanent Redirect"),
   (400, "Bad Request"), (401, "Unauthorized"), (402, "Payment Required"), (403, "Forbidden"),
   (404, "Not Found"), (405, "Method Not Allowed"), (406, "Not Acceptable"),
   (407, "Proxy Authentication Required"), (408, "Request Timeout"), (409, "Conflict"),
   (410, "Gone"), (411, "Length Required"), (412, "Precondition Failed"),
   (413, "Request Entity Too Large"), (414, "Request URI Too Long"),
   (415, "Unsupported Media Type"), (416, "Requested Range Not Satisfiable"),
   (417, "Expectation Failed"), (418, "I\x27m a teapot"), (421, "Misdirected Request"),
   (422, "Unprocessable Entity"), (423, "Locked"), (424, "Failed Dependency"),
   (425, "Too Early"), (426, "Upgrade Required"), (428, "Precondition Required"),
   (429, "Too Many Requests"), (431, "Request Header Fields Too Large"),
   (451, "Unavailable For Legal Reasons"),
   (500, "Internal Server Error"), (501, "Not Implemented"), (502, "Bad Gateway"),
   (503, "Service Unavailable"), (504, "Gateway Timeout"), (505, "HTTP Version Not Supported"),
   (506, "Variant Also Negotiates"), (507, "Insufficient Storage"), (508, "Loop Detected"),
   (510, "Not Extended"), (511, "Network Authentication Required")]

/-- Go `http.StatusText`: the reason phrase, empty for an unknown code. -/
def http.StatusText (code : Int) : String :=
  (http.statusTable.lookup code).getD ""

/-- Go `strings.ToLower` on the ASCII strings `http.StatusText` returns. -/
def strings.ToLower (s : String) : String :=
  ⟨s.data.map Char.toLower⟩

/-- Go `strings.TrimPrefix`: `s` without the leading `pfx`, or `s` when it does not start
with `pfx`. Strings are sequences of characters here, as Go strings of valid UTF-8 are. -/
def strings.TrimPrefix (s pfx : String) : String :=
  if pfx.data.isPrefixOf s.data then ⟨s.data.drop pfx.data.length⟩ else s

/-- Go `strings.TrimSuffix`: `s` without the trailing `sfx`, or `s` when it does not end
with `sfx`. -/
def strings.TrimSuffix (s sfx : String) : String :=
  if sfx.data.isSuffixOf s.data then ⟨s.data.take (s.data.length - sfx.data.length)⟩ else s

/-- Go `path.Base`: the last element of a slash-separated path. -/
def path.Base (p : String) : String :=
  if p = "" then "."
  else
    let stripped := p.data.reverse.dropWhile (fun c => c == '/')
    let last := (stripped.takeWhile (fun c => c != '/')).reverse
    if last = [] then "/" else ⟨last⟩

/-- Go `http.Error`: plain-text headers, the status, then the message and a newline. -/
def http.Error (error : String) (code : Int) : SinkProg :=
  .header
    (fun h => ((h.Del "Content-Length").Set "Content-Type" "text/plain; charset=utf-8").Set
      "X-Content-Type-Options" "nosniff")
    (fun _ => .writeHeader code (.write (error ++ "\n") (fun _ => .ret)))

/-- Go `http.NotFound`, the handler `New` installs as `next`. -/
def http.NotFound (_r : Request) : SinkProg :=
  http.Error "404 page not found" http.StatusNotFound

/-! ## The sinks -/

/-- The real sink records a `WriteHeader` call. -/
def RealSink.WriteHeader (rs : RealSink) (statusCode : Int) : RealSink :=
  { rs with calls := rs.calls ++ [.WriteHeader statusCode] }

/-- The real sink records a `Write` call and answers as the environment says. -/
def RealSink.Write (env : Env) (rs : RealSink) (data : String) : RealSink × WriteResult :=
  ({ rs with calls := rs.calls ++ [.Write data] }, env.writeResult rs data)

/-- Method `(*no404w).WriteHeader`. -/
def no404w.WriteHeader (w : no404w) (statusCode : Int) : Option no404w :=
  let w := { w with status := statusCode }
  if statusCode ≠ 404 then
    match w.ResponseWriter with
    | none => none
    | some rs => some { w with ResponseWriter := some (rs.WriteHeader statusCode) }
  else some w

/-- Method `(no404w).Write`. -/
def no404w.Write (env : Env) (w : no404w) (data : String) : Option (no404w × WriteResult) :=
  if w.status = 404 then some (w, ⟨0, none⟩)
  else
    match w.ResponseWriter with
    | none => none
    | some rs =>
      let res := rs.Write env data
      some ({ w with ResponseWriter := some res.1 }, res.2)

/-- Interface call `w.WriteHeader(statusCode)`. -/
def Writer.WriteHeader : Writer → Int → Option Writer
  | .nil, _ => none
  | .real rs, statusCode => some (.real (rs.WriteHeader statusCode))
  | .shadow n, statusCode => (n.WriteHeader statusCode).map Writer.shadow

/-- Interface call `w.Write(data)`. -/
def Writer.Write (env : Env) : Writer → String → Option (Writer × WriteResult)
  | .nil, _ => none
  | .real rs, data => some (.real (rs.Write env data).1, (rs.Write env data).2)
  | .shadow n, data => (n.Write env data).map (fun p => (Writer.shadow p.1, p.2))

/-- Interface call `w.Header()`; on a shadow sink it is the embedded sink's method. -/
def Writer.Header : Writer → Option tryfiles.Header
  | .nil => none
  | .real rs => some rs.header
  | .shadow n => n.ResponseWriter.map (fun rs => rs.header)

/-- Effect of storing into the map `w.Header()` returned. -/
def Writer.setHeader : Writer → tryfiles.Header → Writer
  | .nil, _ => .nil
  | .real rs, hd => .real { rs with header := hd }
  | .shadow n, hd =>
    .shadow { n with ResponseWriter := n.ResponseWriter.map (fun rs => { rs with header := hd }) }

/-- Statement `w.Header().Del(key)`. -/
def Writer.HeaderDel (w : Writer) (key : String) : Option Writer :=
  match w.Header with
  | none => none
  | some hd => some (w.setHeader (hd.Del key))

/-- Run a collaborator's sink calls against a sink. -/
def SinkProg.run (env : Env) : SinkProg → Writer → Option Writer
  | .ret, w => some w
  | .header f k, w =>
    match w.Header with
    | none => none
    | some hd => SinkProg.run env (k hd) (w.setHeader (f hd))
  | .writeHeader statusCode k, w =>
    match w.WriteHeader statusCode with
    | none => none
    | some w1 => SinkProg.run env k w1
  | .write data k, w =>
    match w.Write env data with
    | none => none
    | some (w1, res) => SinkProg.run env (k res) w1

/-- What a sink call gave back to the collaborator that made it. -/
inductive Returned where
  | headerMap (h : Header)
  | unit
  | written (res : WriteResult)
deriving DecidableEq, Repr

/-- Values the sink gives back to a collaborator during its run, in order. -/
def SinkProg.returns (env : Env) : SinkProg → Writer → List Returned
  | .ret, _ => []
  | .header f k, w =>
    match w.Header with
    | none => []
    | some hd => .headerMap hd :: SinkProg.returns env (k hd) (w.setHeader (f hd))
  | .writeHeader statusCode k, w =>
    match w.WriteHeader statusCode with
    | none => []
    | some w1 => .unit :: SinkProg.returns env k w1
  | .write data k, w =>
    match w.Write env data with
    | none => []
    | some (w1, res) => .written res :: SinkProg.returns env (k res) w1

/-! ## The pool -/

/-- Go `wPool.Get()`: a held instance if there is one, else `New()`. -/
def Pool.Get (p : Pool) : no404w × Pool :=
  match p with
  | [] => (⟨none, 0⟩, [])
  | n :: rest => (n, rest)

/-- Go `wPool.Put(w)`. -/
def Pool.Put (p : Pool) (w : no404w) : Pool :=
  w :: p

/-- Function `wGet`. -/
def wGet (pool : Pool) (w : Writer) : no404w × Pool :=
  match w with
  | .shadow n => (n, pool)
  | .real rs => ({ pool.Get.1 with ResponseWriter := some rs }, pool.Get.2)
  | .nil => ({ pool.Get.1 with ResponseWriter := none }, pool.Get.2)

/-- Function `wPut`. -/
def wPut (pool : Pool) (w : no404w) : Pool :=
  let w := { w with ResponseWriter := none }
  let w := { w with status := 0 }
  pool.Put w

/-- The loop of `InitPool`: `wPut(wGet(nil))`, so many times. -/
def InitPool.loop : Nat → Pool → Pool
  | 0, pool => pool
  | i + 1, pool => InitPool.loop i (wPut (wGet pool .nil).2 (wGet pool .nil).1)

/-- Function `InitPool`; a `size` below 1 runs the loop body no time. -/
def InitPool (pool : Pool) (size : Int) : Pool :=
  InitPool.loop size.toNat pool

/-! ## The handler -/

/-- Function `New`. -/
def New : Handler :=
  { fs := none, trys := ["/index.html"], next := some http.NotFound, rMod := none }

/-- Method `toHTTPError`. -/
def Handler.toHTTPError (_h : Handler) (err : FsError) : Int :=
  if err.isNotExist then http.StatusNotFound
  else if err.isPermission then http.StatusForbidden
  else http.StatusInternalServerError

/-- Method `statusRespond`: `http.Error` with the code and the lower-cased reason phrase. -/
def Handler.statusRespond (env : Env) (_h : Handler) (s : State) (w : Writer) (status : Int) :
    Option (Bool × State × Writer) :=
  let error := toString status ++ " " ++ strings.ToLower (http.StatusText status)
  match (http.Error error status).run env w with
  | none => none
  | some w1 => some (true, s.log (.Error w error status), w1)

/-- Method `tryFile`; the deferred `f.Close()` is the last event of a call that opened `f`. -/
def Handler.tryFile (env : Env) (h : Handler) (s : State) (w : Writer) (r : Request)
    (name : String) : Option (Bool × State × Writer) :=
  match h.fs with
  | none => none
  | some fs =>
    let s := s.log (.Open name)
    match fs name with
    | .error err =>
      let status := h.toHTTPError err
      if status = 404 then some (false, s, w)
      else h.statusRespond env s w status
    | .ok f =>
      let s := s.log (.Stat name)
      match f.Stat with
      | .error err =>
        let status := h.toHTTPError err
        if status = 404 then some (false, s.log (.Close name), w)
        else
          match h.statusRespond env s w status with
          | none => none
          | some (b, s1, w1) => some (b, s1.log (.Close name), w1)
      | .ok stat =>
        match (env.ServeContent r (path.Base name) stat.ModTime f).run env w with
        | none => none
        | some w1 =>
          some (true,
            (s.log (.ServeContent w r (path.Base name) stat.ModTime f)).log (.Close name), w1)

/-- The loop `for _, name := range h.trys` of `ServeHTTP`; `true` when a `tryFile` returned
`true`, which makes `ServeHTTP` return. -/
def Handler.tryFiles (env : Env) (h : Handler) (r : Request) :
    List String → State → Writer → Option (Bool × State × Writer)
  | [], s, w => some (false, s, w)
  | name :: rest, s, w =>
    match h.tryFile env s w r name with
    | none => none
    | some (true, s1, w1) => some (true, s1, w1)
    | some (false, s1, w1) => Handler.tryFiles env h r rest s1 w1

/-- Statement `h.next.ServeHTTP(w, r)`. -/
def Handler.serveNext (env : Env) (h : Handler) (s : State) (w : Writer) (r : Request) :
    Option (State × Writer) :=
  match h.next with
  | none => none
  | some next =>
    match (next r).run env w with
    | none => none
    | some w1 => some (s.log (.next w r), w1)

/-- What the caller's `w` denotes once the shadow sink `n` that `wGet w` returned has been
written through: `n` is `w` itself, or embeds `w` by reference. -/
def Writer.seenThrough (w : Writer) (n : no404w) : Writer :=
  match w with
  | .shadow _ => .shadow n
  | .real rs =>
    match n.ResponseWriter with
    | some rs1 => .real rs1
    | none => .real rs
  | .nil => .nil

/-- What the caller's `w` denotes after the deferred `wPut(n)`: a shadow sink handed in is the
instance that was reset. -/
def Writer.afterPut (w : Writer) : Writer :=
  match w with
  | .shadow _ => .shadow ⟨none, 0⟩
  | w => w

/-- The deferred `wPut(n)` run when `ServeHTTP` returns. -/
def deferredPut (s : State) (n : no404w) (w : Writer) : State × Writer :=
  (({ s with pool := wPut s.pool n }).log .wPut, w.afterPut)

/-- Method `ServeHTTP`. -/
def Handler.ServeHTTP (env : Env) (h : Handler) (s : State) (w : Writer) (r : Request) :
    Option (State × Writer) :=
  let r := match h.rMod with
    | some rMod => rMod r
    | none => r
  let first := match h.fs with
    | none => h.serveNext env s w r
    | some _ => some (s, w)
  match first with
  | none => none
  | some (s, w) =>
    let n := (wGet s.pool w).1
    let s := ({ s with pool := (wGet s.pool w).2 }).log
      (.wGet (match w with
        | .shadow _ => false
        | _ => true))
    let s := s.log (.FileServer n r)
    match (env.FileServer h.fs r).run env (.shadow n) with
    | some (.shadow n) =>
      let w := w.seenThrough n
      if n.status = 404 then
        match w.HeaderDel "Content-Type" with
        | none => none
        | some w =>
          let s := s.log (.HeaderDel "Content-Type")
          match w.HeaderDel "X-Content-Type-Handler" with
          | none => none
          | some w =>
            let s := s.log (.HeaderDel "X-Content-Type-Handler")
            match h.tryFiles env r h.trys s w with
            | none => none
            | some (true, s, w) => some (deferredPut s n w)
            | some (false, s, w) =>
              match h.serveNext env s w r with
              | none => none
              | some (s, w) => some (deferredPut s n w)
      else some (deferredPut s n w)
    | _ => none

/-- Method `HTTPFs`. -/
def Handler.HTTPFs (h : Handler) (fs : Option FileSystem) (trys : List String) : Handler :=
  let h := { h with fs := fs }
  if trys.length > 0 ∧ trys.head? ≠ some "" then { h with trys := trys } else h

/-- Method `Fs`. The adapter `http.FS` from an `fs.FS` to an `http.FileSystem` is the
parameter `httpFS`; its result is never nil. The call passes no list on to `HTTPFs`. -/
def Handler.Fs {FS : Type} (httpFS : FS → FileSystem) (h : Handler) (fs : FS)
    (_trys : List String) : Handler :=
  h.HTTPFs (some (httpFS fs)) []

/-- Method `Try`. -/
def Handler.Try (h : Handler) (trys : List String) : Handler :=
  { h with trys := trys }

/-- Method `NotFound`. -/
def Handler.NotFound (h : Handler) (notFound : Option (Request → SinkProg)) : Handler :=
  { h with next := notFound }

/-- Method `RMod`. -/
def Handler.RMod (h : Handler) (rMod : Option (Request → Request)) : Handler :=
  { h with rMod := rMod }

/-- Method `Strip`. -/
def Handler.Strip (h : Handler) (pfx : String) : Handler :=
  h.RMod (some (fun r =>
    if pfx ≠ "" then
      let r :=
        if strings.TrimPrefix r.URL.Path pfx ≠ r.URL.Path then
          { r with URL := { r.URL with Path := strings.TrimPrefix r.URL.Path pfx } }
        else r
      let r :=
        if strings.TrimPrefix r.URL.RawPath pfx ≠ r.URL.RawPath then
          { r with URL := { r.URL with RawPath := strings.TrimPrefix r.URL.RawPath pfx } }
        else r
      r
    else r))

/-- Method `Strips`. -/
def Handler.Strips (h : Handler) (sfx : String) : Handler :=
  h.RMod (some (fun r =>
    if sfx ≠ "" then
      let r :=
        if strings.TrimSuffix r.URL.Path sfx ≠ r.URL.Path then
          { r with URL := { r.URL with Path := strings.TrimSuffix r.URL.Path sfx } }
        else r
      let r :=
        if strings.TrimSuffix r.URL.RawPath sfx ≠ r.URL.RawPath then
          { r with URL := { r.URL with RawPath := strings.TrimSuffix r.URL.RawPath sfx } }
        else r
      r
    else r))

/-! ## Vocabulary of the statements -/

/-- The request `ServeHTTP` works with once the rewriter, if any, has been applied. -/
def Handler.rewritten (h : Handler) (r : Request) : Request :=
  match h.rMod with
  | some rMod => rMod r
  | none => r

/-- Run a collaborator's sink calls directly on the real sink. -/
def SinkProg.runReal (env : Env) : SinkProg → RealSink → RealSink
  | .ret, rs => rs
  | .header f k, rs => SinkProg.runReal env (k rs.header) { rs with header := f rs.header }
  | .writeHeader statusCode k, rs => SinkProg.runReal env k (rs.WriteHeader statusCode)
  | .write data k, rs => SinkProg.runReal env (k (rs.Write env data).2) (rs.Write env data).1

/-- The real sink after the two `w.Header().Del(..)` statements of `ServeHTTP`. -/
def clearedHeaders (rs : RealSink) : RealSink :=
  { rs with header := (rs.header.Del "Content-Type").Del "X-Content-Type-Handler" }

/-- The events before the candidate walk when the primary attempt ended in 404. -/
def primaryEvents (n : no404w) (r : Request) : List Event :=
  [.wGet true, .FileServer n r, .HeaderDel "Content-Type", .HeaderDel "X-Content-Type-Handler"]

/-- A candidate `tryFile` passes over: its open, or else its stat, fails with not-exist. -/
def Skipped (fs : FileSystem) (name : String) : Prop :=
  (∃ e, fs name = .error e ∧ e.isNotExist = true) ∨
  (∃ f e, fs name = .ok f ∧ f.Stat = .error e ∧ e.isNotExist = true)

/-- Events of a `tryFile` call that passes over its candidate. -/
def skippedEvents (fs : FileSystem) (name : String) : List Event :=
  match fs name with
  | .error _ => [.Open name]
  | .ok _ => [.Open name, .Stat name, .Close name]

/-- Names opened on the filesystem, in order. -/
def openedNames (t : List Event) : List String :=
  t.filterMap (fun e =>
    match e with
    | .Open name => some name
    | _ => none)

/-- Invocations of the terminal handler, each with the sink as it was and the request. -/
def nextCalls (t : List Event) : List (Writer × Request) :=
  t.filterMap (fun e =>
    match e with
    | .next w r => some (w, r)
    | _ => none)

/-- Status of the response a real sink has sent: the first `WriteHeader`, or 200 when a
`Write` came first, as `net/http` does. -/
def RealSink.status (rs : RealSink) : Option Int :=
  match rs.calls with
  | [] => none
  | .WriteHeader statusCode :: _ => some statusCode
  | .Write _ :: _ => some 200

/-- Body of the response a real sink has sent: the data of its `Write` calls. -/
def RealSink.body (rs : RealSink) : String :=
  String.join (rs.calls.filterMap (fun c =>
    match c with
    | .Write data => some data
    | .WriteHeader _ => none))

/-- Along its run on the real sink the program makes no `WriteHeader(404)` call. -/
def SinkProg.no404 (env : Env) : SinkProg → RealSink → Prop
  | .ret, _ => True
  | .header f k, rs => SinkProg.no404 env (k rs.header) { rs with header := f rs.header }
  | .writeHeader statusCode k, rs =>
    statusCode ≠ 404 ∧ SinkProg.no404 env k (rs.WriteHeader statusCode)
  | .write data k, rs => SinkProg.no404 env (k (rs.Write env data).2) (rs.Write env data).1

/-- Along its run through a shadow sink over a header map `hd` the program sets status 404
before any `Write` and sets no other status; `seen` says whether 404 has been set already.
A `Write` made after that gets the shadow sink's `(0, nil)`. -/
def SinkProg.sets404First : SinkProg → Header → Bool → Bool
  | .ret, _, seen => seen
  | .header f k, hd, seen => SinkProg.sets404First (k hd) (f hd) seen
  | .writeHeader statusCode k, hd, _ =>
    decide (statusCode = 404) && SinkProg.sets404First k hd true
  | .write _ k, hd, seen => seen && SinkProg.sets404First (k ⟨0, none⟩) hd true

/-- A sequence of `WriteHeader` and `Write` calls made on a shadow sink. -/
def no404w.calls (env : Env) : no404w → List SinkCall → Option no404w
  | n, [] => some n
  | n, .WriteHeader statusCode :: rest =>
    match n.WriteHeader statusCode with
    | none => none
    | some n1 => no404w.calls env n1 rest
  | n, .Write data :: rest =>
    match n.Write env data with
    | none => none
    | some (n1, _) => no404w.calls env n1 rest

/-- Status recorded after a call sequence: the code of its last `WriteHeader`. -/
def lastStatus : Int → List SinkCall → Int
  | st, [] => st
  | _, .WriteHeader statusCode :: rest => lastStatus statusCode rest
  | st, .Write _ :: rest => lastStatus st rest

/-- Every instance held in the pool has no embedded sink and the unset status. -/
def Pool.Reset (p : Pool) : Prop :=
  ∀ n ∈ p, n = ⟨none, 0⟩

/-- Whether a sink handed to `wGet` is already a shadow sink. -/
def Writer.isShadow : Writer → Bool
  | .shadow _ => true
  | _ => false

/-- The pool calls of a trace, in order: `some fresh` for a `wGet` (`fresh` when it took an
instance from the pool), `none` for a `wPut`. -/
def poolCalls (t : List Event) : List (Option Bool) :=
  t.filterMap (fun e =>
    match e with
    | .wGet fresh => some (some fresh)
    | .wPut => some none
    | _ => none)

/-! ## Sample collaborators and inputs -/

/-- A content-serving routine: a content type unless one is set, status 200, the content. -/
def demoServeContent (_r : Request) (_name : String) (_modtime : Nat) (f : File) : SinkProg :=
  .header
    (fun h => if h.Has "Content-Type" then h else h.Set "Content-Type" "text/html; charset=utf-8")
    (fun _ => .writeHeader 200 (.write f.content (fun _ => .ret)))

/-- A file server: the file at the request path, or `http.Error` with 404 as Go answers a
path it cannot open. -/
def demoFileServer (root : Option FileSystem) (r : Request) : SinkProg :=
  match root with
  | none => .ret
  | some fs =>
    match fs r.URL.Path with
    | .error _ => http.Error "404 page not found" 404
    | .ok f => demoServeContent r r.URL.Path 0 f

/-- The sample collaborators, with a real sink whose writes all succeed. -/
def demoEnv : Env :=
  { FileServer := demoFileServer, ServeContent := demoServeContent,
    writeResult := fun _ data => ⟨data.length, none⟩ }

/-- The error `fs.ErrNotExist`. -/
def errNotExist : FsError := ⟨true, false, "file does not exist"⟩

/-- The error `fs.ErrPermission`. -/
def errPermission : FsError := ⟨false, true, "permission denied"⟩

/-- A filesystem with no file. -/
def emptyFS : FileSystem := fun _ => .error errNotExist

/-- A filesystem holding `/a.html` and `/b.html`. -/
def abFS : FileSystem := fun name =>
  if name = "/a.html" then .ok ⟨"/a.html", "<a/>", .ok ⟨1⟩⟩
  else if name = "/b.html" then .ok ⟨"/b.html", "<b/>", .ok ⟨2⟩⟩
  else .error errNotExist

/-- A filesystem holding `/index.html` only. -/
def indexFS : FileSystem := fun name =>
  if name = "/index.html" then .ok ⟨"/index.html", "<app/>", .ok ⟨1⟩⟩
  else .error errNotExist

/-- A filesystem whose `/secret.html` cannot be opened and which holds `/b.html`. -/
def lockedFS : FileSystem := fun name =>
  if name = "/secret.html" then .error errPermission
  else if name = "/b.html" then .ok ⟨"/b.html", "<b/>", .ok ⟨2⟩⟩
  else .error errNotExist

/-- Collaborators whose file server writes a body without ever calling `WriteHeader`. -/
def bareEnv : Env :=
  { FileServer := fun _ _ => .write "hello" (fun _ => .ret), ServeContent := demoServeContent,
    writeResult := fun _ data => ⟨data.length, none⟩ }

/-- A filesystem whose `/broken.html` opens but cannot be statted and which holds `/b.html`. -/
def brokenFS : FileSystem := fun name =>
  if name = "/broken.html" then
    .ok ⟨"/broken.html", "", .error ⟨false, false, "input/output error"⟩⟩
  else if name = "/b.html" then .ok ⟨"/b.html", "<b/>", .ok ⟨2⟩⟩
  else .error errNotExist

/-- A GET request for a path. -/
def getRequest (p : String) : Request := ⟨"GET", ⟨p, ""⟩⟩

/-- A real sink that has received nothing. -/
def freshSink : RealSink := ⟨⟨[]⟩, []⟩

/-- An empty pool and an empty trace. -/
def freshState : State := ⟨[], []⟩

/-! ## Running collaborators on the two kinds of sink -/

theorem run_real (env : Env) (p : SinkProg) (rs : RealSink) :
    p.run env (.real rs) = some (.real (p.runReal env rs)) := by
  induction p generalizing rs with
  | ret => rfl
  | header f k ih => simp [SinkProg.run, SinkProg.runReal, Writer.Header, Writer.setHeader, ih]
  | writeHeader c k ih => simp [SinkProg.run, SinkProg.runReal, Writer.WriteHeader, ih]
  | write d k ih => simp [SinkProg.run, SinkProg.runReal, Writer.Write, ih]

theorem run_shadow_bound (env : Env) (p : SinkProg) (rs : RealSink) (st : Int) :
    ∃ rs1 st1, p.run env (.shadow ⟨some rs, st⟩) = some (.shadow ⟨some rs1, st1⟩) := by
  induction p generalizing rs st with
  | ret => exact ⟨rs, st, rfl⟩
  | header f k ih =>
    simp only [SinkProg.run, Writer.Header, Writer.setHeader, Option.map_some']
    exact ih _ _ _
  | writeHeader c k ih =>
    by_cases hc : c = 404
    · subst hc
      simp only [SinkProg.run, Writer.WriteHeader, no404w.WriteHeader]
      simpa using ih rs 404
    · simp only [SinkProg.run, Writer.WriteHeader, no404w.WriteHeader]
      simpa [hc] using ih (rs.WriteHeader c) c
  | write d k ih =>
    by_cases hs : st = 404
    · simp only [SinkProg.run, Writer.Write, no404w.Write]
      simpa [hs] using ih ⟨0, none⟩ rs 404
    · simp only [SinkProg.run, Writer.Write, no404w.Write]
      simpa [hs] using ih _ (rs.Write env d).1 st

/-! ## The candidate walk -/

theorem tryFile_skipped (env : Env) (h : Handler) (fs : FileSystem) (hfs : h.fs = some fs)
    (r : Request) (name : String) (hs : Skipped fs name) (s : State) (w : Writer) :
    h.tryFile env s w r name = some (false, ⟨s.pool, s.trace ++ skippedEvents fs name⟩, w) := by
  rcases hs with ⟨e, he, hne⟩ | ⟨f, e, hf, he, hne⟩
  · simp [Handler.tryFile, hfs, he, Handler.toHTTPError, hne, http.StatusNotFound, State.log,
      skippedEvents]
  · simp [Handler.tryFile, hfs, hf, he, Handler.toHTTPError, hne, http.StatusNotFound, State.log,
      skippedEvents]

theorem tryFiles_skipped (env : Env) (h : Handler) (fs : FileSystem) (hfs : h.fs = some fs)
    (r : Request) (pre rest : List String) (hpre : ∀ c ∈ pre, Skipped fs c)
    (s : State) (w : Writer) :
    h.tryFiles env r (pre ++ rest) s w =
      h.tryFiles env r rest ⟨s.pool, s.trace ++ pre.flatMap (skippedEvents fs)⟩ w := by
  induction pre generalizing s with
  | nil => simp
  | cons c pre ih =>
    have hc : Skipped fs c := hpre c (by simp)
    have hrest : ∀ d ∈ pre, Skipped fs d := fun d hd => hpre d (by simp [hd])
    simp only [List.cons_append, Handler.tryFiles, tryFile_skipped env h fs hfs r c hc s w]
    rw [List.append_eq, ih hrest]
    simp [List.flatMap_cons, List.append_assoc]

theorem skippedEvents_of_open_error (fs : FileSystem) (pre : List String)
    (hpre : ∀ c ∈ pre, ∃ e, fs c = .error e ∧ e.isNotExist = true) :
    pre.flatMap (skippedEvents fs) = pre.map Event.Open := by
  induction pre with
  | nil => rfl
  | cons c pre ih =>
    obtain ⟨e, he, _⟩ := hpre c (by simp)
    have hrest : ∀ d ∈ pre, ∃ e, fs d = .error e ∧ e.isNotExist = true :=
      fun d hd => hpre d (by simp [hd])
    simp [List.flatMap_cons, skippedEvents, he, ih hrest]

theorem openedNames_append (a b : List Event) :
    openedNames (a ++ b) = openedNames a ++ openedNames b := by
  simp [openedNames, List.filterMap_append]

theorem nextCalls_append (a b : List Event) :
    nextCalls (a ++ b) = nextCalls a ++ nextCalls b := by
  simp [nextCalls, List.filterMap_append]

theorem openedNames_skipped (fs : FileSystem) (pre : List String) :
    openedNames (pre.flatMap (skippedEvents fs)) = pre := by
  induction pre with
  | nil => rfl
  | cons c pre ih =>
    rw [List.flatMap_cons, openedNames_append, ih]
    cases hc : fs c <;> simp [skippedEvents, hc, openedNames]

theorem nextCalls_skipped (fs : FileSystem) (pre : List String) :
    nextCalls (pre.flatMap (skippedEvents fs)) = [] := by
  induction pre with
  | nil => rfl
  | cons c pre ih =>
    rw [List.flatMap_cons, nextCalls_append, ih]
    cases hc : fs c <;> simp [skippedEvents, hc, nextCalls]

theorem tryFile_served (env : Env) (h : Handler) (fs : FileSystem) (hfs : h.fs = some fs)
    (r : Request) (name : String) (f : File) (info : FileInfo)
    (hopen : fs name = .ok f) (hstat : f.Stat = .ok info) (s : State) (rs : RealSink) :
    h.tryFile env s (.real rs) r name =
      some (true,
        ⟨s.pool, s.trace ++ [.Open name, .Stat name,
          .ServeContent (.real rs) r (path.Base name) info.ModTime f, .Close name]⟩,
        .real ((env.ServeContent r (path.Base name) info.ModTime f).runReal env rs)) := by
  simp [Handler.tryFile, hfs, hopen, hstat, run_real, State.log]

/-! ## Unfolding `ServeHTTP` after a primary attempt that ended in 404 -/

theorem ServeHTTP_after_404 (env : Env) (h : Handler) (fs : FileSystem) (s : State)
    (rs rs1 : RealSink) (r : Request) (hfs : h.fs = some fs)
    (hprim : (env.FileServer (some fs) (h.rewritten r)).run env
      (.shadow (wGet s.pool (.real rs)).1) = some (.shadow ⟨some rs1, 404⟩)) :
    h.ServeHTTP env s (.real rs) r =
      match h.tryFiles env (h.rewritten r) h.trys
          ⟨(wGet s.pool (.real rs)).2,
            s.trace ++ primaryEvents (wGet s.pool (.real rs)).1 (h.rewritten r)⟩
          (.real (clearedHeaders rs1)) with
      | none => none
      | some (true, s2, w2) => some (deferredPut s2 ⟨some rs1, 404⟩ w2)
      | some (false, s2, w2) =>
        match h.serveNext env s2 w2 (h.rewritten r) with
        | none => none
        | some (s3, w3) => some (deferredPut s3 ⟨some rs1, 404⟩ w3) := by
  unfold Handler.rewritten at hprim ⊢
  simp only [Handler.ServeHTTP, hfs, State.log]
  rw [hprim]
  simp [Writer.seenThrough, Writer.HeaderDel, Writer.Header, Writer.setHeader, clearedHeaders,
    primaryEvents, List.append_assoc]

/-! ## C1: the first candidate that opens and stats wins -/

/-- C1. With a filesystem configured, when the primary attempt ends with recorded status 404
(leaving the real sink as `rs1`), every candidate before `name` fails to open with not-exist,
and `name` opens and stats, `ServeHTTP` returns after serving `name`: the content-serving
routine runs on the real sink with the opened file, `path.Base name` and the file's
modification time, the names opened are exactly the candidates up to `name`, in order, and
the terminal handler is not invoked. -/
theorem first_openable_candidate_is_served (env : Env) (h : Handler) (fs : FileSystem)
    (s : State) (rs rs1 : RealSink) (r : Request) (pre post : List String) (name : String)
    (f : File) (info : FileInfo)
    (hfs : h.fs = some fs)
    (htrys : h.trys = pre ++ name :: post)
    (hprim : (env.FileServer (some fs) (h.rewritten r)).run env
      (.shadow (wGet s.pool (.real rs)).1) = some (.shadow ⟨some rs1, 404⟩))
    (hpre : ∀ c ∈ pre, ∃ e, fs c = .error e ∧ e.isNotExist = true)
    (hopen : fs name = .ok f) (hstat : f.Stat = .ok info) :
    ∃ s1 rs2,
      h.ServeHTTP env s (.real rs) r = some (s1, .real rs2) ∧
      (env.ServeContent (h.rewritten r) (path.Base name) info.ModTime f).run env
        (.real (clearedHeaders rs1)) = some (.real rs2) ∧
      s1.trace = s.trace ++ primaryEvents (wGet s.pool (.real rs)).1 (h.rewritten r) ++
        pre.map Event.Open ++
        [.Open name, .Stat name,
          .ServeContent (.real (clearedHeaders rs1)) (h.rewritten r) (path.Base name)
            info.ModTime f,
          .Close name, .wPut] ∧
      openedNames s1.trace = openedNames s.trace ++ pre ++ [name] ∧
      nextCalls s1.trace = nextCalls s.trace := by
  have hsk : ∀ c ∈ pre, Skipped fs c := fun c hc => Or.inl (hpre c hc)
  have hev := skippedEvents_of_open_error fs pre hpre
  have hop := openedNames_skipped fs pre
  have hnx := nextCalls_skipped fs pre
  rw [hev] at hop hnx
  have hserve : h.ServeHTTP env s (.real rs) r =
      some (deferredPut
        ⟨(wGet s.pool (.real rs)).2,
          s.trace ++ primaryEvents (wGet s.pool (.real rs)).1 (h.rewritten r) ++
            pre.flatMap (skippedEvents fs) ++
            [.Open name, .Stat name,
              .ServeContent (.real (clearedHeaders rs1)) (h.rewritten r) (path.Base name)
                info.ModTime f,
              .Close name]⟩
        ⟨some rs1, 404⟩
        (.real ((env.ServeContent (h.rewritten r) (path.Base name) info.ModTime f).runReal env
          (clearedHeaders rs1)))) := by
    rw [ServeHTTP_after_404 env h fs s rs rs1 r hfs hprim, htrys,
      tryFiles_skipped env h fs hfs _ pre _ hsk]
    simp only [Handler.tryFiles, tryFile_served env h fs hfs _ name f info hopen hstat]
  refine ⟨_, _, hserve, run_real env _ _, ?_, ?_, ?_⟩
  · simp [deferredPut, State.log, hev, List.append_assoc]
  · simp only [deferredPut, State.log, hev, openedNames_append, hop]
    simp [primaryEvents, openedNames]
  · simp only [deferredPut, State.log, hev, nextCalls_append, hnx]
    simp [primaryEvents, nextCalls]

/-- With the list `/a.html`, `/b.html` on a filesystem holding both, a request for a missing
path is answered with `/a.html` and `/b.html` is never opened; with the list swapped it is
answered with `/b.html` and `/a.html` is never opened. -/
theorem first_openable_candidate_is_served_witness :
    (∃ s1 rs2,
      ({ New with fs := some abFS, trys := ["/a.html", "/b.html"] } : Handler).ServeHTTP demoEnv
        freshState (.real freshSink) (getRequest "/missing") = some (s1, .real rs2) ∧
      openedNames s1.trace = ["/a.html"] ∧ nextCalls s1.trace = [] ∧
      rs2.calls = [.WriteHeader 200, .Write "<a/>"]) ∧
    (∃ s1 rs2,
      ({ New with fs := some abFS, trys := ["/b.html", "/a.html"] } : Handler).ServeHTTP demoEnv
        freshState (.real freshSink) (getRequest "/missing") = some (s1, .real rs2) ∧
      openedNames s1.trace = ["/b.html"] ∧ nextCalls s1.trace = [] ∧
      rs2.calls = [.WriteHeader 200, .Write "<b/>"]) := by
  constructor
  · obtain ⟨s1, rs2, hserve, hrun, _, hopened, hnext⟩ :=
      first_openable_candidate_is_served demoEnv
        ({ New with fs := some abFS, trys := ["/a.html", "/b.html"] } : Handler) abFS freshState
        freshSink
        ⟨⟨[("Content-Type", ["text/plain; charset=utf-8"]),
          ("X-Content-Type-Options", ["nosniff"])]⟩, []⟩
        (getRequest "/missing") [] ["/b.html"] "/a.html" ⟨"/a.html", "<a/>", .ok ⟨1⟩⟩ ⟨1⟩
        rfl rfl rfl (by simp) rfl rfl
    refine ⟨s1, rs2, hserve, by simpa using hopened, by simpa using hnext, ?_⟩
    have hrs : rs2 = ⟨⟨[("X-Content-Type-Options", ["nosniff"]),
        ("Content-Type", ["text/html; charset=utf-8"])]⟩, [.WriteHeader 200, .Write "<a/>"]⟩ :=
      (Writer.real.inj (Option.some.inj hrun)).symm
    rw [hrs]
  · obtain ⟨s1, rs2, hserve, hrun, _, hopened, hnext⟩ :=
      first_openable_candidate_is_served demoEnv
        ({ New with fs := some abFS, trys := ["/b.html", "/a.html"] } : Handler) abFS freshState
        freshSink
        ⟨⟨[("Content-Type", ["text/plain; charset=utf-8"]),
          ("X-Content-Type-Options", ["nosniff"])]⟩, []⟩
        (getRequest "/missing") [] ["/a.html"] "/b.html" ⟨"/b.html", "<b/>", .ok ⟨2⟩⟩ ⟨2⟩
        rfl rfl rfl (by simp) rfl rfl
    refine ⟨s1, rs2, hserve, by simpa using hopened, by simpa using hnext, ?_⟩
    have hrs : rs2 = ⟨⟨[("X-Content-Type-Options", ["nosniff"]),
        ("Content-Type", ["text/html; charset=utf-8"])]⟩, [.WriteHeader 200, .Write "<b/>"]⟩ :=
      (Writer.real.inj (Option.some.inj hrun)).symm
    rw [hrs]

/-! ## C2: no filesystem configured -/

/-- C2. On the handler `New()` returns, which has no filesystem, `ServeHTTP` invokes the
terminal handler on the real sink and then, instead of returning, takes a shadow sink from
the pool and runs the file-serving collaborator with the nil filesystem on it, over the sink
the terminal handler has already written to; if that run records 404 the walk reaches
`h.fs.Open` on the nil filesystem (no result), otherwise the call ends with the deferred
`wPut`. -/
theorem ServeHTTP_without_filesystem_goes_on (env : Env) (s : State) (rs : RealSink)
    (r : Request) :
    ∃ rs1 rs2 st,
      (http.NotFound r).run env (.real rs) = some (.real rs1) ∧
      (env.FileServer none r).run env (.shadow (wGet s.pool (.real rs1)).1) =
        some (.shadow ⟨some rs2, st⟩) ∧
      New.ServeHTTP env s (.real rs) r =
        if st = 404 then none
        else some
          (⟨wPut (wGet s.pool (.real rs1)).2 ⟨some rs2, st⟩,
            s.trace ++ [.next (.real rs) r, .wGet true,
              .FileServer (wGet s.pool (.real rs1)).1 r, .wPut]⟩,
           .real rs2) := by
  obtain ⟨rs2, st, hrun⟩ := run_shadow_bound env (env.FileServer none r)
    ((http.NotFound r).runReal env rs) (s.pool.Get.1).status
  refine ⟨_, rs2, st, run_real env _ _, hrun, ?_⟩
  have hrun1 : (env.FileServer none r).run env
      (.shadow (wGet s.pool (.real ((http.NotFound r).runReal env rs))).1) =
      some (.shadow ⟨some rs2, st⟩) := hrun
  simp only [Handler.ServeHTTP, New, Handler.serveNext, run_real, State.log]
  rw [hrun1]
  by_cases hst : st = 404
  · simp [hst, Writer.seenThrough, Writer.HeaderDel, Writer.Header, Writer.setHeader,
      Handler.tryFiles, Handler.tryFile]
  · simp [hst, Writer.seenThrough, deferredPut, State.log, Writer.afterPut]

/-! ## C3 and C4: the two methods of the shadow sink -/

theorem RealSink.WriteHeader_ne (rs : RealSink) (c : Int) : rs.WriteHeader c ≠ rs := by
  intro h
  have hlen := congrArg (fun x => x.calls.length) h
  simp [RealSink.WriteHeader] at hlen

/-- C3. On a shadow sink bound to a real sink `rs`, `WriteHeader(c)` records `c`; the real
sink receives `WriteHeader(c)` exactly when `c` is not 404, and is left as it was when `c`
is 404. -/
theorem WriteHeader_records_and_forwards_unless_404 (n : no404w) (rs : RealSink) (c : Int)
    (hb : n.ResponseWriter = some rs) :
    ∃ n1, n.WriteHeader c = some n1 ∧ n1.status = c ∧
      n1.ResponseWriter = some (if c = 404 then rs else rs.WriteHeader c) ∧
      (n1.ResponseWriter = some (rs.WriteHeader c) ↔ c ≠ 404) := by
  by_cases hc : c = 404
  · refine ⟨⟨some rs, c⟩, ?_, rfl, by simp [hc], ?_⟩
    · cases n
      simp_all [no404w.WriteHeader]
    · simp only [hc, ne_eq, not_true_eq_false, iff_false, Option.some.injEq]
      exact fun h => RealSink.WriteHeader_ne rs 404 h.symm
  · refine ⟨⟨some (rs.WriteHeader c), c⟩, ?_, rfl, by simp [hc], by simp [hc]⟩
    cases n
    simp_all [no404w.WriteHeader]

/-- A shadow sink with recorded status 0 records 404 and leaves its real sink untouched;
it records 200 and passes it on. -/
theorem WriteHeader_records_and_forwards_unless_404_witness :
    (∃ n1, (⟨some freshSink, 0⟩ : no404w).WriteHeader 404 = some n1 ∧ n1.status = 404 ∧
      n1.ResponseWriter = some freshSink) ∧
    (∃ n1, (⟨some freshSink, 0⟩ : no404w).WriteHeader 200 = some n1 ∧ n1.status = 200 ∧
      n1.ResponseWriter = some ⟨⟨[]⟩, [.WriteHeader 200]⟩) := by
  constructor
  · obtain ⟨n1, h1, h2, h3, _⟩ :=
      WriteHeader_records_and_forwards_unless_404 ⟨some freshSink, 0⟩ freshSink 404 rfl
    exact ⟨n1, h1, h2, by simpa using h3⟩
  · obtain ⟨n1, h1, h2, h3, _⟩ :=
      WriteHeader_records_and_forwards_unless_404 ⟨some freshSink, 0⟩ freshSink 200 rfl
    exact ⟨n1, h1, h2, by simpa [RealSink.WriteHeader, freshSink] using h3⟩

/-- C4. On a shadow sink bound to a real sink `rs`: when the recorded status is 404, `Write`
returns `(0, nil)` and changes nothing, the real sink included; with any other recorded
status, 0 included, the real sink receives the bytes and `Write` returns what the real sink
returned. -/
theorem Write_discards_under_404_else_forwards (env : Env) (n : no404w) (rs : RealSink)
    (data : String) (hb : n.ResponseWriter = some rs) :
    (n.status = 404 → n.Write env data = some (n, ⟨0, none⟩)) ∧
    (n.status ≠ 404 →
      n.Write env data =
        some (⟨some (rs.Write env data).1, n.status⟩, (rs.Write env data).2)) := by
  cases n
  simp_all [no404w.Write]

/-- Under status 404 the bytes are dropped; under the unset status 0 they reach the real
sink, whose answer is returned. -/
theorem Write_discards_under_404_else_forwards_witness :
    (⟨some freshSink, 404⟩ : no404w).Write demoEnv "abc" =
      some (⟨some freshSink, 404⟩, ⟨0, none⟩) ∧
    (⟨some freshSink, 0⟩ : no404w).Write demoEnv "abc" =
      some (⟨some ⟨⟨[]⟩, [.Write "abc"]⟩, 0⟩, ⟨3, none⟩) :=
  ⟨(Write_discards_under_404_else_forwards demoEnv ⟨some freshSink, 404⟩ freshSink "abc"
      rfl).1 rfl,
   (Write_discards_under_404_else_forwards demoEnv ⟨some freshSink, 0⟩ freshSink "abc"
      rfl).2 (by decide)⟩

/-! ## C5: the shadow sink is invisible when no 404 is set -/

theorem run_shadow_no404 (env : Env) (p : SinkProg) (rs : RealSink) (st : Int)
    (hst : st ≠ 404) (hp : p.no404 env rs) :
    ∃ st1, st1 ≠ 404 ∧
      p.run env (.shadow ⟨some rs, st⟩) = some (.shadow ⟨some (p.runReal env rs), st1⟩) ∧
      p.returns env (.shadow ⟨some rs, st⟩) = p.returns env (.real rs) := by
  induction p generalizing rs st with
  | ret => exact ⟨st, hst, rfl, rfl⟩
  | header f k ih =>
    obtain ⟨st1, h1, h2, h3⟩ := ih rs.header { rs with header := f rs.header } st hst hp
    exact ⟨st1, h1, by simpa [SinkProg.run, SinkProg.runReal, Writer.Header, Writer.setHeader]
      using h2, by simpa [SinkProg.returns, Writer.Header, Writer.setHeader] using h3⟩
  | writeHeader c k ih =>
    obtain ⟨hc, hk⟩ := hp
    obtain ⟨st1, h1, h2, h3⟩ := ih (rs.WriteHeader c) c hc hk
    exact ⟨st1, h1,
      by simpa [SinkProg.run, SinkProg.runReal, Writer.WriteHeader, no404w.WriteHeader, hc]
        using h2,
      by simpa [SinkProg.returns, Writer.WriteHeader, no404w.WriteHeader, hc] using h3⟩
  | write d k ih =>
    obtain ⟨st1, h1, h2, h3⟩ := ih (rs.Write env d).2 (rs.Write env d).1 st hst hp
    exact ⟨st1, h1,
      by simpa [SinkProg.run, SinkProg.runReal, Writer.Write, no404w.Write, hst] using h2,
      by simpa [SinkProg.returns, Writer.Write, no404w.Write, hst] using h3⟩

theorem wGet_real (pool : Pool) (rs : RealSink) :
    (wGet pool (.real rs)).1 = ⟨some rs, (pool.Get.1).status⟩ := rfl

theorem Pool.Get_status_ne_404 (pool : Pool) (hpool : ∀ n ∈ pool, n.status ≠ 404) :
    (pool.Get.1).status ≠ 404 := by
  cases pool with
  | nil => simp [Pool.Get]
  | cons n rest => exact hpool n (by simp)

/-- C5. With a filesystem configured and no pooled instance holding status 404 (`wPut`
resets each to 0), when the calls the file-serving collaborator makes contain no
`WriteHeader(404)`, with or without any `WriteHeader` at all, running it through the shadow
sink leaves the real sink exactly as running it on the real sink directly does (same header
map, same calls in the same order), gives the collaborator the same return values, and
`ServeHTTP` then only runs the deferred `wPut`: it opens no candidate, deletes no header and
does not invoke the terminal handler. -/
theorem shadow_sink_is_transparent_without_404 (env : Env) (h : Handler) (fs : FileSystem)
    (s : State) (rs : RealSink) (r : Request)
    (hfs : h.fs = some fs)
    (hpool : ∀ n ∈ s.pool, n.status ≠ 404)
    (hno : (env.FileServer (some fs) (h.rewritten r)).no404 env rs) :
    ∃ rs1 st1 s1,
      (env.FileServer (some fs) (h.rewritten r)).run env (.real rs) = some (.real rs1) ∧
      (env.FileServer (some fs) (h.rewritten r)).run env (.shadow (wGet s.pool (.real rs)).1) =
        some (.shadow ⟨some rs1, st1⟩) ∧
      st1 ≠ 404 ∧
      (env.FileServer (some fs) (h.rewritten r)).returns env
          (.shadow (wGet s.pool (.real rs)).1) =
        (env.FileServer (some fs) (h.rewritten r)).returns env (.real rs) ∧
      h.ServeHTTP env s (.real rs) r = some (s1, .real rs1) ∧
      s1.trace = s.trace ++
        [.wGet true, .FileServer (wGet s.pool (.real rs)).1 (h.rewritten r), .wPut] := by
  obtain ⟨st1, hst1, hrun, hret⟩ := run_shadow_no404 env _ rs (s.pool.Get.1).status
    (Pool.Get_status_ne_404 s.pool hpool) hno
  rw [← wGet_real] at hrun hret
  have hserve : h.ServeHTTP env s (.real rs) r =
      some (deferredPut
        ⟨(wGet s.pool (.real rs)).2,
          s.trace ++ [.wGet true, .FileServer (wGet s.pool (.real rs)).1 (h.rewritten r)]⟩
        ⟨some ((env.FileServer (some fs) (h.rewritten r)).runReal env rs), st1⟩
        (.real ((env.FileServer (some fs) (h.rewritten r)).runReal env rs))) := by
    unfold Handler.rewritten at hrun ⊢
    simp only [Handler.ServeHTTP, hfs, State.log]
    rw [hrun]
    simp [hst1, Writer.seenThrough]
  exact ⟨_, st1, _, run_real env _ _, hrun, hst1, hret, hserve, by simp [deferredPut, State.log]⟩

/-- A request for an existing file is answered through the shadow sink as the file server
alone answers it, and so is the answer of a file server that never calls `WriteHeader`. -/
theorem shadow_sink_is_transparent_without_404_witness :
    (∃ s1,
      ({ New with fs := some abFS } : Handler).ServeHTTP demoEnv freshState (.real freshSink)
        (getRequest "/a.html") =
        some (s1, .real ((demoFileServer (some abFS) (getRequest "/a.html")).runReal demoEnv
          freshSink)) ∧
      s1.trace = [.wGet true, .FileServer ⟨some freshSink, 0⟩ (getRequest "/a.html"), .wPut]) ∧
    (∃ s1,
      ({ New with fs := some abFS } : Handler).ServeHTTP bareEnv freshState (.real freshSink)
        (getRequest "/a.html") = some (s1, .real ⟨⟨[]⟩, [.Write "hello"]⟩) ∧
      s1.trace = [.wGet true, .FileServer ⟨some freshSink, 0⟩ (getRequest "/a.html"), .wPut]) := by
  constructor
  · obtain ⟨rs1, st1, s1, hreal, _, _, _, hserve, htrace⟩ :=
      shadow_sink_is_transparent_without_404 demoEnv ({ New with fs := some abFS } : Handler)
        abFS freshState freshSink (getRequest "/a.html") rfl (by simp [freshState])
        ⟨by decide, trivial⟩
    have hrs : rs1 = (demoFileServer (some abFS) (getRequest "/a.html")).runReal demoEnv
        freshSink := (Writer.real.inj (Option.some.inj hreal)).symm
    rw [hrs] at hserve
    exact ⟨s1, hserve, htrace⟩
  · obtain ⟨rs1, st1, s1, hreal, _, _, _, hserve, htrace⟩ :=
      shadow_sink_is_transparent_without_404 bareEnv ({ New with fs := some abFS } : Handler)
        abFS freshState freshSink (getRequest "/a.html") rfl (by simp [freshState]) trivial
    have hrs : rs1 = ⟨⟨[]⟩, [.Write "hello"]⟩ := (Writer.real.inj (Option.some.inj hreal)).symm
    rw [hrs] at hserve
    exact ⟨s1, hserve, htrace⟩

/-! ## C6: every attempt fails with not-found -/

theorem run_shadow_sets404 (env : Env) (p : SinkProg) (rs : RealSink) (st : Int) (seen : Bool)
    (hseen : seen = true → st = 404) (hp : p.sets404First rs.header seen = true) :
    ∃ hd, p.run env (.shadow ⟨some rs, st⟩) = some (.shadow ⟨some ⟨hd, rs.calls⟩, 404⟩) := by
  induction p generalizing rs st seen with
  | ret =>
    simp only [SinkProg.sets404First] at hp
    exact ⟨rs.header, by simp [SinkProg.run, hseen hp]⟩
  | header f k ih =>
    simp only [SinkProg.sets404First] at hp
    obtain ⟨hd, hrun⟩ := ih rs.header { rs with header := f rs.header } st seen hseen hp
    exact ⟨hd, by simpa [SinkProg.run, Writer.Header, Writer.setHeader] using hrun⟩
  | writeHeader c k ih =>
    simp only [SinkProg.sets404First, Bool.and_eq_true, decide_eq_true_eq] at hp
    obtain ⟨hc, hk⟩ := hp
    obtain ⟨hd, hrun⟩ := ih rs 404 true (fun _ => rfl) hk
    exact ⟨hd, by simpa [SinkProg.run, Writer.WriteHeader, no404w.WriteHeader, hc] using hrun⟩
  | write d k ih =>
    simp only [SinkProg.sets404First, Bool.and_eq_true] at hp
    obtain ⟨hs, hk⟩ := hp
    obtain ⟨hd, hrun⟩ := ih ⟨0, none⟩ rs 404 true (fun _ => rfl) hk
    exact ⟨hd, by simpa [SinkProg.run, Writer.Write, no404w.Write, hseen hs] using hrun⟩

theorem ServeHTTP_all_skipped (env : Env) (h : Handler) (fs : FileSystem)
    (nx : Request → SinkProg) (s : State) (rs rs1 : RealSink) (r : Request)
    (hfs : h.fs = some fs) (hnext : h.next = some nx)
    (hprim : (env.FileServer (some fs) (h.rewritten r)).run env
      (.shadow (wGet s.pool (.real rs)).1) = some (.shadow ⟨some rs1, 404⟩))
    (hall : ∀ c ∈ h.trys, Skipped fs c) :
    h.ServeHTTP env s (.real rs) r =
      some (deferredPut
        ⟨(wGet s.pool (.real rs)).2,
          s.trace ++ primaryEvents (wGet s.pool (.real rs)).1 (h.rewritten r) ++
            h.trys.flatMap (skippedEvents fs) ++
            [.next (.real (clearedHeaders rs1)) (h.rewritten r)]⟩
        ⟨some rs1, 404⟩
        (.real ((nx (h.rewritten r)).runReal env (clearedHeaders rs1)))) := by
  have hwalk := tryFiles_skipped env h fs hfs (h.rewritten r) h.trys [] hall
    ⟨(wGet s.pool (.real rs)).2,
      s.trace ++ primaryEvents (wGet s.pool (.real rs)).1 (h.rewritten r)⟩
    (.real (clearedHeaders rs1))
  rw [List.append_nil] at hwalk
  rw [ServeHTTP_after_404 env h fs s rs rs1 r hfs hprim, hwalk]
  simp [Handler.tryFiles, Handler.serveNext, hnext, run_real, State.log]

/-- C6. With a filesystem and a terminal handler configured, when the file-serving
collaborator sets status 404 before any body bytes (and sets no other status) and every
candidate is passed over because its open or stat fails with not-exist, `ServeHTTP`
invokes the terminal handler exactly once, on the real sink, and at that invocation the
real sink holds exactly the calls it held before the request: no `WriteHeader` and no bytes
from the primary attempt or from a candidate. -/
theorem terminal_handler_once_on_untouched_sink (env : Env) (h : Handler) (fs : FileSystem)
    (nx : Request → SinkProg) (s : State) (rs : RealSink) (r : Request)
    (hfs : h.fs = some fs) (hnext : h.next = some nx)
    (hprim : (env.FileServer (some fs) (h.rewritten r)).sets404First rs.header false = true)
    (hall : ∀ c ∈ h.trys, Skipped fs c) :
    ∃ s1 rs1 rs2,
      h.ServeHTTP env s (.real rs) r = some (s1, .real rs2) ∧
      nextCalls s1.trace = nextCalls s.trace ++ [(.real rs1, h.rewritten r)] ∧
      rs1.calls = rs.calls ∧
      (nx (h.rewritten r)).run env (.real rs1) = some (.real rs2) ∧
      openedNames s1.trace = openedNames s.trace ++ h.trys := by
  obtain ⟨hd, hrun⟩ := run_shadow_sets404 env _ rs (s.pool.Get.1).status false
    (fun hf => absurd hf (by decide)) hprim
  rw [← wGet_real] at hrun
  have hserve := ServeHTTP_all_skipped env h fs nx s rs ⟨hd, rs.calls⟩ r hfs hnext hrun hall
  refine ⟨_, clearedHeaders ⟨hd, rs.calls⟩, _, hserve, ?_, rfl, run_real env _ _, ?_⟩
  · simp only [deferredPut, State.log, nextCalls_append, nextCalls_skipped]
    simp [primaryEvents, nextCalls]
  · simp only [deferredPut, State.log, openedNames_append, openedNames_skipped]
    simp [primaryEvents, openedNames]

/-- On an empty filesystem a request for a missing path reaches the default terminal handler
once, on a real sink that has received no call. -/
theorem terminal_handler_once_on_untouched_sink_witness :
    ∃ s1 rs1 rs2,
      ({ New with fs := some emptyFS } : Handler).ServeHTTP demoEnv freshState (.real freshSink)
        (getRequest "/foo") = some (s1, .real rs2) ∧
      nextCalls s1.trace = [(.real rs1, getRequest "/foo")] ∧ rs1.calls = [] ∧
      openedNames s1.trace = ["/index.html"] := by
  obtain ⟨s1, rs1, rs2, hserve, hnext, hcalls, _, hopened⟩ :=
    terminal_handler_once_on_untouched_sink demoEnv ({ New with fs := some emptyFS } : Handler)
      emptyFS http.NotFound freshState freshSink (getRequest "/foo") rfl rfl rfl
      (by
        intro c hc
        exact Or.inl ⟨errNotExist, rfl, rfl⟩)
  exact ⟨s1, rs1, rs2, hserve, by simpa using hnext, hcalls, by simpa using hopened⟩

/-! ## C7: a candidate error other than not-found ends the walk -/

theorem Header.find_Del (hd : Header) (key : String) :
    (hd.Del key).entries.find? (fun kv => kv.1 == key) = none := by
  simp [Header.Del, List.find?_eq_none]

theorem Header.Values_Set (hd : Header) (key value : String) :
    (hd.Set key value).Values key = some [value] := by
  simp [Header.Values, Header.Set, List.find?_append, Header.find_Del]

theorem Header.Values_Set_of_ne (hd : Header) (key other value : String) (hne : key ≠ other) :
    (hd.Set other value).Values key = hd.Values key := by
  have hfind : ∀ l : List (String × List String),
      (l.filter (fun kv => kv.1 != other)).find? (fun kv => kv.1 == key) =
        l.find? (fun kv => kv.1 == key) := by
    intro l
    induction l with
    | nil => rfl
    | cons a l ih =>
      by_cases h1 : a.1 = other
      · have h4 : (other == key) = false := by simpa using fun h => hne h.symm
        rw [List.filter_cons, List.find?_cons]
        simp [h1, ih, h4]
      · by_cases h3 : a.1 = key
        · simp [List.filter_cons, List.find?_cons, h3, hne]
        · simp [List.filter_cons, List.find?_cons, h1, h3, ih]
  have hne2 : ¬ other = key := fun h => hne h.symm
  simp [Header.Values, Header.Set, Header.Del, List.find?_append, hfind, hne2]

theorem http.Error_runReal (env : Env) (error : String) (code : Int) (rs : RealSink) :
    ((http.Error error code).runReal env rs).calls =
        rs.calls ++ [.WriteHeader code, .Write (error ++ "\n")] ∧
      ((http.Error error code).runReal env rs).header.Values "Content-Type" =
        some ["text/plain; charset=utf-8"] := by
  constructor
  · simp [http.Error, SinkProg.runReal, RealSink.WriteHeader, RealSink.Write]
  · simp only [http.Error, SinkProg.runReal, RealSink.WriteHeader, RealSink.Write]
    rw [Header.Values_Set_of_ne _ _ _ _ (by decide), Header.Values_Set]

theorem toHTTPError_of_other (h : Handler) (err : FsError) (hne : err.isNotExist = false) :
    h.toHTTPError err = (if err.isPermission then 403 else 500) ∧
      toString (h.toHTTPError err) ++ " " ++ strings.ToLower (http.StatusText (h.toHTTPError err))
        = (if err.isPermission then "403 forbidden" else "500 internal server error") := by
  cases hp : err.isPermission
  · simp only [Handler.toHTTPError, hne, hp, http.StatusInternalServerError]
    exact ⟨rfl, by decide⟩
  · simp only [Handler.toHTTPError, hne, hp, http.StatusForbidden]
    exact ⟨rfl, by decide⟩

theorem tryFile_failed (env : Env) (h : Handler) (fs : FileSystem) (hfs : h.fs = some fs)
    (r : Request) (name : String) (err : FsError)
    (hfail : fs name = .error err ∨ ∃ f, fs name = .ok f ∧ f.Stat = .error err)
    (hne : err.isNotExist = false) (s : State) (rs : RealSink) :
    ∃ ev,
      h.tryFile env s (.real rs) r name =
        some (true, ⟨s.pool, s.trace ++ ev⟩,
          .real ((http.Error (if err.isPermission then "403 forbidden"
              else "500 internal server error")
            (if err.isPermission then 403 else 500)).runReal env rs)) ∧
      openedNames ev = [name] ∧ nextCalls ev = [] ∧
      Event.Error (.real rs)
        (if err.isPermission then "403 forbidden" else "500 internal server error")
        (if err.isPermission then 403 else 500) ∈ ev := by
  obtain ⟨hcode, hmsg⟩ := toHTTPError_of_other h err hne
  have h404 : ¬ h.toHTTPError err = 404 := by
    rw [hcode]
    split <;> decide
  rcases hfail with he | ⟨f, hf, he⟩
  · refine ⟨[.Open name, .Error (.real rs)
        (if err.isPermission then "403 forbidden" else "500 internal server error")
        (if err.isPermission then 403 else 500)], ?_, by simp [openedNames],
      by simp [nextCalls], by simp⟩
    simp only [Handler.tryFile, hfs, he, h404, if_false, Handler.statusRespond, hmsg, run_real,
      State.log]
    simp [hcode]
  · refine ⟨[.Open name, .Stat name, .Error (.real rs)
        (if err.isPermission then "403 forbidden" else "500 internal server error")
        (if err.isPermission then 403 else 500), .Close name], ?_,
      by simp [openedNames], by simp [nextCalls], by simp⟩
    simp only [Handler.tryFile, hfs, hf, he, h404, if_false, Handler.statusRespond, hmsg,
      run_real, State.log]
    simp [hcode]

/-- C7. With a filesystem configured, when the primary attempt ends with recorded status 404
(leaving the real sink as `rs1`), the candidates before `name` are passed over (open or stat
fails with not-exist) and the open or the stat of `name` fails with an error that is not
not-exist, `ServeHTTP` answers on the real sink through `http.Error`: status 403 and the
text `403 forbidden` for a permission error, status 500 and `500 internal server error` for
any other, each followed by the newline `http.Error` appends, with a plain-text content
type; the names opened are exactly the candidates up to `name`, and the terminal handler is
not invoked. -/
theorem candidate_error_ends_walk (env : Env) (h : Handler) (fs : FileSystem)
    (s : State) (rs rs1 : RealSink) (r : Request) (pre post : List String) (name : String)
    (err : FsError)
    (hfs : h.fs = some fs)
    (htrys : h.trys = pre ++ name :: post)
    (hprim : (env.FileServer (some fs) (h.rewritten r)).run env
      (.shadow (wGet s.pool (.real rs)).1) = some (.shadow ⟨some rs1, 404⟩))
    (hpre : ∀ c ∈ pre, Skipped fs c)
    (hfail : fs name = .error err ∨ ∃ f, fs name = .ok f ∧ f.Stat = .error err)
    (hne : err.isNotExist = false) :
    ∃ s1 rs2,
      h.ServeHTTP env s (.real rs) r = some (s1, .real rs2) ∧
      rs2.calls = rs1.calls ++
        (if err.isPermission then [.WriteHeader 403, .Write "403 forbidden\n"]
          else [.WriteHeader 500, .Write "500 internal server error\n"]) ∧
      rs2.header.Values "Content-Type" = some ["text/plain; charset=utf-8"] ∧
      Event.Error (.real (clearedHeaders rs1))
        (if err.isPermission then "403 forbidden" else "500 internal server error")
        (if err.isPermission then 403 else 500) ∈ s1.trace ∧
      openedNames s1.trace = openedNames s.trace ++ pre ++ [name] ∧
      nextCalls s1.trace = nextCalls s.trace := by
  obtain ⟨ev, htry, hop, hnx, hmem⟩ := tryFile_failed env h fs hfs (h.rewritten r) name err
    hfail hne
    ⟨(wGet s.pool (.real rs)).2,
      s.trace ++ primaryEvents (wGet s.pool (.real rs)).1 (h.rewritten r) ++
        pre.flatMap (skippedEvents fs)⟩
    (clearedHeaders rs1)
  have hserve : h.ServeHTTP env s (.real rs) r =
      some (deferredPut
        ⟨(wGet s.pool (.real rs)).2,
          s.trace ++ primaryEvents (wGet s.pool (.real rs)).1 (h.rewritten r) ++
            pre.flatMap (skippedEvents fs) ++ ev⟩
        ⟨some rs1, 404⟩
        (.real ((http.Error
            (if err.isPermission then "403 forbidden" else "500 internal server error")
            (if err.isPermission then 403 else 500)).runReal env (clearedHeaders rs1)))) := by
    rw [ServeHTTP_after_404 env h fs s rs rs1 r hfs hprim, htrys,
      tryFiles_skipped env h fs hfs _ pre _ hpre]
    simp only [Handler.tryFiles, htry]
  obtain ⟨hcalls, hct⟩ := http.Error_runReal env
    (if err.isPermission then "403 forbidden" else "500 internal server error")
    (if err.isPermission then 403 else 500) (clearedHeaders rs1)
  refine ⟨_, _, hserve, ?_, hct, ?_, ?_, ?_⟩
  · rw [hcalls]
    cases err.isPermission <;> simp [clearedHeaders]
  · simp [deferredPut, State.log, hmem]
  · simp only [deferredPut, State.log, openedNames_append, openedNames_skipped, hop]
    simp [primaryEvents, openedNames]
  · simp only [deferredPut, State.log, nextCalls_append, nextCalls_skipped, hnx]
    simp [primaryEvents, nextCalls]

/-- A candidate that cannot be opened for lack of permission gives 403 and one that cannot
be statted gives 500; in both cases `/b.html`, which exists and comes later in the list, is
never opened. -/
theorem candidate_error_ends_walk_witness :
    (∃ s1 rs2,
      ({ New with fs := some lockedFS, trys := ["/missing.html", "/secret.html", "/b.html"] }
        : Handler).ServeHTTP demoEnv freshState (.real freshSink) (getRequest "/foo") =
        some (s1, .real rs2) ∧
      rs2.calls = [.WriteHeader 403, .Write "403 forbidden\n"] ∧
      openedNames s1.trace = ["/missing.html", "/secret.html"] ∧ nextCalls s1.trace = []) ∧
    (∃ s1 rs2,
      ({ New with fs := some brokenFS, trys := ["/broken.html", "/b.html"] }
        : Handler).ServeHTTP demoEnv freshState (.real freshSink) (getRequest "/foo") =
        some (s1, .real rs2) ∧
      rs2.calls = [.WriteHeader 500, .Write "500 internal server error\n"] ∧
      openedNames s1.trace = ["/broken.html"] ∧ nextCalls s1.trace = []) := by
  constructor
  · obtain ⟨s1, rs2, hserve, hcalls, _, _, hopened, hnext⟩ :=
      candidate_error_ends_walk demoEnv
        ({ New with fs := some lockedFS, trys := ["/missing.html", "/secret.html", "/b.html"] }
          : Handler) lockedFS freshState freshSink
        ⟨⟨[("Content-Type", ["text/plain; charset=utf-8"]),
          ("X-Content-Type-Options", ["nosniff"])]⟩, []⟩
        (getRequest "/foo") ["/missing.html"] ["/b.html"] "/secret.html" errPermission
        rfl rfl rfl
        (by
          intro c hc
          rw [List.mem_singleton] at hc
          subst hc
          exact Or.inl ⟨errNotExist, rfl, rfl⟩)
        (Or.inl rfl) rfl
    exact ⟨s1, rs2, hserve, by simpa [errPermission] using hcalls, by simpa using hopened,
      by simpa using hnext⟩
  · obtain ⟨s1, rs2, hserve, hcalls, _, _, hopened, hnext⟩ :=
      candidate_error_ends_walk demoEnv
        ({ New with fs := some brokenFS, trys := ["/broken.html", "/b.html"] } : Handler)
        brokenFS freshState freshSink
        ⟨⟨[("Content-Type", ["text/plain; charset=utf-8"]),
          ("X-Content-Type-Options", ["nosniff"])]⟩, []⟩
        (getRequest "/foo") [] ["/b.html"] "/broken.html" ⟨false, false, "input/output error"⟩
        rfl rfl rfl (by simp)
        (Or.inr ⟨⟨"/broken.html", "", .error ⟨false, false, "input/output error"⟩⟩, rfl, rfl⟩)
        rfl
    exact ⟨s1, rs2, hserve, by simpa using hcalls, by simpa using hopened,
      by simpa using hnext⟩

/-! ## C8: the default terminal handler -/

/-- C8, as stated, fails: on `New()` with an empty filesystem and the default list, a request
for `/foo` is not answered with the body `404 not found`. -/
theorem default_terminal_body_counterexample :
    ¬ ∃ s1 rs1,
      (New.HTTPFs (some emptyFS) []).ServeHTTP demoEnv freshState (.real freshSink)
        (getRequest "/foo") = some (s1, .real rs1) ∧
      rs1.status = some 404 ∧ rs1.body = "404 not found" := by
  rintro ⟨s1, rs1, hserve, -, hbody⟩
  have hval : ((New.HTTPFs (some emptyFS) []).ServeHTTP demoEnv freshState (.real freshSink)
      (getRequest "/foo")).map (fun p => p.2) =
      some (.real ⟨⟨[("Content-Type", ["text/plain; charset=utf-8"]),
        ("X-Content-Type-Options", ["nosniff"])]⟩,
        [.WriteHeader 404, .Write "404 page not found\n"]⟩) := rfl
  rw [hserve] at hval
  have hrs := Writer.real.inj (Option.some.inj hval)
  rw [hrs] at hbody
  revert hbody
  decide

/-- C8, amended. On `New()` given a filesystem on which every open fails with not-exist,
with the default list and the terminal handler `New` installed, when the file-serving
collaborator answers the request with status 404 set before any body bytes, the response on
a real sink that had received nothing has status 404, a plain-text content type and the
body `404 page not found` followed by a newline. -/
theorem default_terminal_handler_answers_page_not_found (env : Env) (fs : FileSystem)
    (s : State) (hd : Header) (r : Request)
    (hempty : ∀ name, ∃ e, fs name = .error e ∧ e.isNotExist = true)
    (hprim : (env.FileServer (some fs) r).sets404First hd false = true) :
    ∃ s1 rs1,
      (New.HTTPFs (some fs) []).ServeHTTP env s (.real ⟨hd, []⟩) r = some (s1, .real rs1) ∧
      rs1.status = some 404 ∧ rs1.body = "404 page not found\n" ∧
      rs1.header.Values "Content-Type" = some ["text/plain; charset=utf-8"] := by
  have hr : (New.HTTPFs (some fs) []).rewritten r = r := rfl
  obtain ⟨hd1, hrun⟩ := run_shadow_sets404 env (env.FileServer (some fs) r) ⟨hd, []⟩
    (s.pool.Get.1).status false (fun hf => absurd hf (by decide)) hprim
  rw [← wGet_real] at hrun
  have hall : ∀ c ∈ (New.HTTPFs (some fs) []).trys, Skipped fs c :=
    fun c _ => Or.inl (hempty c)
  have hserve := ServeHTTP_all_skipped env (New.HTTPFs (some fs) []) fs http.NotFound s
    ⟨hd, []⟩ ⟨hd1, []⟩ r rfl rfl (by rw [hr]; exact hrun) hall
  obtain ⟨hcalls, hct⟩ := http.Error_runReal env "404 page not found" 404
    (clearedHeaders ⟨hd1, []⟩)
  refine ⟨_, _, hserve, ?_, ?_, ?_⟩
  · show RealSink.status ((http.Error "404 page not found" 404).runReal env _) = some 404
    unfold RealSink.status
    rw [hcalls]
    rfl
  · show RealSink.body ((http.Error "404 page not found" 404).runReal env _) = _
    unfold RealSink.body
    rw [hcalls]
    rfl
  · exact hct

/-- On the empty filesystem a request for `/foo` gets status 404 and the body
`404 page not found` with its newline. -/
theorem default_terminal_handler_answers_page_not_found_witness :
    ∃ s1 rs1,
      (New.HTTPFs (some emptyFS) []).ServeHTTP demoEnv freshState (.real freshSink)
        (getRequest "/foo") = some (s1, .real rs1) ∧
      rs1.status = some 404 ∧ rs1.body = "404 page not found\n" := by
  obtain ⟨s1, rs1, hserve, hstatus, hbody, _⟩ :=
    default_terminal_handler_answers_page_not_found demoEnv emptyFS freshState ⟨[]⟩
      (getRequest "/foo") (fun _ => ⟨errNotExist, rfl, rfl⟩) rfl
  exact ⟨s1, rs1, hserve, hstatus, hbody⟩

/-! ## C9: call sequences on the shadow sink -/

/-- C9, as stated, fails: after `WriteHeader(200)` has been recorded, a later
`WriteHeader(404)` and the `Write` after it are not forwarded; the real sink holds the first
call only. -/
theorem pass_through_is_left_counterexample :
    no404w.calls demoEnv ⟨some freshSink, 0⟩
        [.WriteHeader 200, .WriteHeader 404, .Write "late"] =
      some ⟨some ⟨⟨[]⟩, [.WriteHeader 200]⟩, 404⟩ ∧
    (⟨⟨[]⟩, [.WriteHeader 200]⟩ : RealSink) ≠
      ⟨⟨[]⟩, [.WriteHeader 200, .WriteHeader 404, .Write "late"]⟩ :=
  ⟨rfl, by decide⟩

theorem calls_forwarded (env : Env) (cs : List SinkCall) (rs : RealSink) (st : Int)
    (hst : st ≠ 404) (hcs : ∀ c ∈ cs, c ≠ .WriteHeader 404) :
    no404w.calls env ⟨some rs, st⟩ cs =
        some ⟨some { rs with calls := rs.calls ++ cs }, lastStatus st cs⟩ ∧
      lastStatus st cs ≠ 404 := by
  induction cs generalizing rs st with
  | nil => simp [no404w.calls, lastStatus, hst]
  | cons c cs ih =>
    have hrest : ∀ d ∈ cs, d ≠ .WriteHeader 404 := fun d hd => hcs d (by simp [hd])
    cases c with
    | WriteHeader code =>
      have hcode : code ≠ 404 := fun h => hcs (.WriteHeader code) (by simp) (by rw [h])
      obtain ⟨h1, h2⟩ := ih (rs.WriteHeader code) code hcode hrest
      exact ⟨by simpa [no404w.calls, no404w.WriteHeader, hcode, lastStatus,
        RealSink.WriteHeader] using h1, by simpa [lastStatus] using h2⟩
    | Write data =>
      obtain ⟨h1, h2⟩ := ih (rs.Write env data).1 st hst hrest
      exact ⟨by simpa [no404w.calls, no404w.Write, hst, lastStatus, RealSink.Write] using h1,
        by simpa [lastStatus] using h2⟩

theorem calls_suppressed (env : Env) (cs : List SinkCall) (w : Option RealSink)
    (hcs : ∀ c ∈ cs, ∀ code, c = .WriteHeader code → code = 404) :
    no404w.calls env ⟨w, 404⟩ cs = some ⟨w, 404⟩ := by
  induction cs with
  | nil => rfl
  | cons c cs ih =>
    have hrest : ∀ d ∈ cs, ∀ code, d = .WriteHeader code → code = 404 :=
      fun d hd => hcs d (by simp [hd])
    cases c with
    | WriteHeader code =>
      have hcode : code = 404 := hcs (.WriteHeader code) (by simp) code rfl
      subst hcode
      simpa [no404w.calls, no404w.WriteHeader] using ih hrest
    | Write data => simpa [no404w.calls, no404w.Write] using ih hrest

/-- C9, amended. On a shadow sink bound to a real sink `rs`: from a recorded status other
than 404, a call sequence without `WriteHeader(404)` reaches the real sink whole and in
order, and the recorded status stays other than 404; from recorded status 404, a call
sequence whose `WriteHeader` calls all carry 404 leaves the shadow sink and the real sink
as they were, so no bytes and no status reach the real sink. -/
theorem shadow_sink_call_sequences (env : Env) (n : no404w) (rs : RealSink)
    (cs : List SinkCall) (hb : n.ResponseWriter = some rs) :
    (n.status ≠ 404 → (∀ c ∈ cs, c ≠ .WriteHeader 404) →
      n.calls env cs = some ⟨some { rs with calls := rs.calls ++ cs }, lastStatus n.status cs⟩ ∧
        lastStatus n.status cs ≠ 404) ∧
    (n.status = 404 → (∀ c ∈ cs, ∀ code, c = .WriteHeader code → code = 404) →
      n.calls env cs = some n) := by
  obtain ⟨w, st⟩ := n
  simp only at hb
  subst hb
  refine ⟨fun hst hcs => calls_forwarded env cs rs st hst hcs, fun hst hcs => ?_⟩
  simp only at hst
  subst hst
  exact calls_suppressed env cs (some rs) hcs

/-- From the unset status a header-then-body sequence reaches the real sink whole; from
status 404 writes and a repeated 404 leave it empty. -/
theorem shadow_sink_call_sequences_witness :
    no404w.calls demoEnv ⟨some freshSink, 0⟩ [.WriteHeader 200, .Write "a", .Write "b"] =
      some ⟨some ⟨⟨[]⟩, [.WriteHeader 200, .Write "a", .Write "b"]⟩, 200⟩ ∧
    no404w.calls demoEnv ⟨some freshSink, 404⟩ [.Write "a", .WriteHeader 404, .Write "b"] =
      some ⟨some freshSink, 404⟩ :=
  ⟨((shadow_sink_call_sequences demoEnv ⟨some freshSink, 0⟩ freshSink
      [.WriteHeader 200, .Write "a", .Write "b"] rfl).1 (by decide) (by decide)).1,
   (shadow_sink_call_sequences demoEnv ⟨some freshSink, 404⟩ freshSink
      [.Write "a", .WriteHeader 404, .Write "b"] rfl).2 rfl (by simp)⟩

/-! ## C10: the header clean-up before the candidate walk -/

/-- C10. On a filesystem holding only `/index.html`, a request for `/foo/bar` whose primary
attempt ends in 404 through `http.Error` is answered with `/index.html`, and the
`X-Content-Type-Options` header the failed attempt set is still in the real sink's header map
when the candidate is served and in the response: `ServeHTTP` deletes `Content-Type` and a
key `X-Content-Type-Handler` instead. -/
theorem sniff_header_survives_cleanup :
    ((New.HTTPFs (some indexFS) []).ServeHTTP demoEnv freshState (.real freshSink)
        (getRequest "/foo/bar")).map (fun p => (p.1.trace, p.2)) =
      some
        ([.wGet true, .FileServer ⟨some freshSink, 0⟩ (getRequest "/foo/bar"),
          .HeaderDel "Content-Type", .HeaderDel "X-Content-Type-Handler",
          .Open "/index.html", .Stat "/index.html",
          .ServeContent (.real ⟨⟨[("X-Content-Type-Options", ["nosniff"])]⟩, []⟩)
            (getRequest "/foo/bar") "index.html" 1 ⟨"/index.html", "<app/>", .ok ⟨1⟩⟩,
          .Close "/index.html", .wPut],
         .real ⟨⟨[("X-Content-Type-Options", ["nosniff"]),
           ("Content-Type", ["text/html; charset=utf-8"])]⟩,
           [.WriteHeader 200, .Write "<app/>"]⟩) :=
  rfl

/-! ## C11 and C19: the filesystem setters and the candidate list -/

/-- C11. `Fs` sets the filesystem and leaves the candidate list as it was, whatever list it
is given: on `New()` with the list `/a.html`, `/b.html` the candidates stay `/index.html`,
where `HTTPFs` with the same list installs it. -/
theorem Fs_drops_custom_list {FS : Type} (httpFS : FS → FileSystem) (h : Handler) (fs : FS)
    (trys : List String) :
    (h.Fs httpFS fs trys).trys = h.trys ∧
    (h.Fs httpFS fs trys).fs = some (httpFS fs) ∧
    (New.Fs httpFS fs ["/a.html", "/b.html"]).trys = ["/index.html"] ∧
    (New.HTTPFs (some (httpFS fs)) ["/a.html", "/b.html"]).trys = ["/a.html", "/b.html"] :=
  ⟨rfl, rfl, rfl, rfl⟩

/-- C19. `HTTPFs` with an empty list, or with a list whose first entry is the empty string,
changes the filesystem field and nothing else: the candidate list stays as it was,
whatever the later entries are. -/
theorem HTTPFs_keeps_list_without_first_entry (h : Handler) (fs : Option FileSystem)
    (trys : List String) (hfirst : trys = [] ∨ trys.head? = some "") :
    h.HTTPFs fs trys = { h with fs := fs } := by
  rcases hfirst with hnil | hhead
  · simp [Handler.HTTPFs, hnil]
  · simp [Handler.HTTPFs, hhead]

/-- On `New()` the list `""`, `/a.html` leaves the default candidate `/index.html`, and so
does the empty list. -/
theorem HTTPFs_keeps_list_without_first_entry_witness :
    (New.HTTPFs (some emptyFS) ["", "/a.html"]).trys = ["/index.html"] ∧
    (New.HTTPFs (some emptyFS) []).trys = ["/index.html"] :=
  ⟨congrArg Handler.trys
      (HTTPFs_keeps_list_without_first_entry New (some emptyFS) ["", "/a.html"] (Or.inr rfl)),
   congrArg Handler.trys
      (HTTPFs_keeps_list_without_first_entry New (some emptyFS) [] (Or.inl rfl))⟩

/-! ## C12 and C20: the strip rewriters -/

theorem strings.TrimPrefix_append (p rest : String) :
    strings.TrimPrefix (p ++ rest) p = rest := by
  simp [strings.TrimPrefix, String.data_append]

theorem strings.TrimPrefix_of_not_leading (s p : String) (hno : ¬ ∃ rest, s = p ++ rest) :
    strings.TrimPrefix s p = s := by
  unfold strings.TrimPrefix
  split
  · rename_i hp
    exfalso
    rw [List.isPrefixOf_iff_prefix] at hp
    obtain ⟨t, ht⟩ := hp
    exact hno ⟨⟨t⟩, String.ext (by simp [String.data_append, ht])⟩
  · rfl

theorem strings.TrimSuffix_append (rest p : String) :
    strings.TrimSuffix (rest ++ p) p = rest := by
  simp [strings.TrimSuffix, String.data_append]

theorem strings.TrimSuffix_of_not_trailing (s p : String) (hno : ¬ ∃ rest, s = rest ++ p) :
    strings.TrimSuffix s p = s := by
  unfold strings.TrimSuffix
  split
  · rename_i hp
    exfalso
    rw [List.isSuffixOf_iff_suffix] at hp
    obtain ⟨t, ht⟩ := hp
    exact hno ⟨⟨t⟩, String.ext (by simp [String.data_append, ht])⟩
  · rfl

theorem strings.TrimPrefix_empty (s : String) : strings.TrimPrefix s "" = s := by
  simpa using strings.TrimPrefix_append "" s

theorem strings.TrimSuffix_empty (s : String) : strings.TrimSuffix s "" = s := by
  simpa using strings.TrimSuffix_append s ""

theorem Strip_rMod (h : Handler) (p : String) :
    (h.Strip p).rMod = some (fun r =>
      ⟨r.Method, ⟨strings.TrimPrefix r.URL.Path p, strings.TrimPrefix r.URL.RawPath p⟩⟩) := by
  simp only [Handler.Strip, Handler.RMod, Option.some.injEq]
  funext r
  by_cases hp : p = ""
  · simp [hp, strings.TrimPrefix_empty]
  · by_cases h1 : strings.TrimPrefix r.URL.Path p = r.URL.Path <;>
      by_cases h2 : strings.TrimPrefix r.URL.RawPath p = r.URL.RawPath <;>
      simp [hp, h1, h2]

theorem Strips_rMod (h : Handler) (p : String) :
    (h.Strips p).rMod = some (fun r =>
      ⟨r.Method, ⟨strings.TrimSuffix r.URL.Path p, strings.TrimSuffix r.URL.RawPath p⟩⟩) := by
  simp only [Handler.Strips, Handler.RMod, Option.some.injEq]
  funext r
  by_cases hp : p = ""
  · simp [hp, strings.TrimSuffix_empty]
  · by_cases h1 : strings.TrimSuffix r.URL.Path p = r.URL.Path <;>
      by_cases h2 : strings.TrimSuffix r.URL.RawPath p = r.URL.RawPath <;>
      simp [hp, h1, h2]

/-- C12. The rewriter `Strip(p)` installs keeps the method, turns a `URL.Path` of the form
`p ++ rest` into `rest` and leaves any other `URL.Path` as it is, and treats `URL.RawPath`
the same way; the rewriter `Strips(p)` installs does so for a path of the form `rest ++ p`;
with the empty string both return the request unchanged. -/
theorem strip_rewriters_trim_one_occurrence (h : Handler) (p : String) (r : Request) :
    (∃ f, (h.Strip p).rMod = some f ∧
      (f r).Method = r.Method ∧
      (∀ rest, r.URL.Path = p ++ rest → (f r).URL.Path = rest) ∧
      ((¬ ∃ rest, r.URL.Path = p ++ rest) → (f r).URL.Path = r.URL.Path) ∧
      (∀ rest, r.URL.RawPath = p ++ rest → (f r).URL.RawPath = rest) ∧
      ((¬ ∃ rest, r.URL.RawPath = p ++ rest) → (f r).URL.RawPath = r.URL.RawPath) ∧
      (p = "" → f r = r)) ∧
    (∃ f, (h.Strips p).rMod = some f ∧
      (f r).Method = r.Method ∧
      (∀ rest, r.URL.Path = rest ++ p → (f r).URL.Path = rest) ∧
      ((¬ ∃ rest, r.URL.Path = rest ++ p) → (f r).URL.Path = r.URL.Path) ∧
      (∀ rest, r.URL.RawPath = rest ++ p → (f r).URL.RawPath = rest) ∧
      ((¬ ∃ rest, r.URL.RawPath = rest ++ p) → (f r).URL.RawPath = r.URL.RawPath) ∧
      (p = "" → f r = r)) := by
  refine ⟨⟨_, Strip_rMod h p, rfl, ?_, ?_, ?_, ?_, ?_⟩, ⟨_, Strips_rMod h p, rfl, ?_, ?_, ?_, ?_, ?_⟩⟩
  · intro rest hr
    simp only [hr, strings.TrimPrefix_append]
  · exact fun hno => strings.TrimPrefix_of_not_leading _ _ hno
  · intro rest hr
    simp only [hr, strings.TrimPrefix_append]
  · exact fun hno => strings.TrimPrefix_of_not_leading _ _ hno
  · intro hp
    subst hp
    simp only [strings.TrimPrefix_empty]
  · intro rest hr
    simp only [hr, strings.TrimSuffix_append]
  · exact fun hno => strings.TrimSuffix_of_not_trailing _ _ hno
  · intro rest hr
    simp only [hr, strings.TrimSuffix_append]
  · exact fun hno => strings.TrimSuffix_of_not_trailing _ _ hno
  · intro hp
    subst hp
    simp only [strings.TrimSuffix_empty]

/-- The rewriter `Strip("/api")` turns `/api/users` into `/users` in both paths and leaves
`/static/x` alone; `Strips(".html")` turns `/page.html` into `/page`. -/
theorem strip_rewriters_trim_one_occurrence_witness :
    (∃ f, (New.Strip "/api").rMod = some f ∧
      (f ⟨"GET", ⟨"/api/users", "/api/users"⟩⟩).URL = ⟨"/users", "/users"⟩) ∧
    (∃ f, (New.Strips ".html").rMod = some f ∧
      (f ⟨"GET", ⟨"/page.html", "/page.html"⟩⟩).URL = ⟨"/page", "/page"⟩) := by
  obtain ⟨⟨f, hf, _, hpath, _, hraw, _, _⟩, _⟩ :=
    strip_rewriters_trim_one_occurrence New "/api" ⟨"GET", ⟨"/api/users", "/api/users"⟩⟩
  obtain ⟨_, ⟨g, hg, _, gpath, _, graw, _, _⟩⟩ :=
    strip_rewriters_trim_one_occurrence New ".html" ⟨"GET", ⟨"/page.html", "/page.html"⟩⟩
  refine ⟨⟨f, hf, ?_⟩, ⟨g, hg, ?_⟩⟩
  · have h1 := hpath "/users" rfl
    have h2 := hraw "/users" rfl
    cases hu : (f ⟨"GET", ⟨"/api/users", "/api/users"⟩⟩).URL
    simp_all
  · have h1 := gpath "/page" rfl
    have h2 := graw "/page" rfl
    cases hu : (g ⟨"GET", ⟨"/page.html", "/page.html"⟩⟩).URL
    simp_all

/-- C20. The rewriter of `Strip("/a b")` strips the path `/a b/c` to `/c` and leaves the raw
path `/a%20b/c` as it is; the rewriter of `Strip("/a")` maps `/a/a/b` to `/a/b` and that to
`/b`, so applying it twice differs from applying it once. The rewriters of `Strips` behave
alike on `/c/a b` with raw path `/c/a%20b`, and on `/b/a/a`. -/
theorem strip_rewriters_split_paths_and_repeat :
    (New.Strip "/a b").rewritten ⟨"GET", ⟨"/a b/c", "/a%20b/c"⟩⟩ =
      ⟨"GET", ⟨"/c", "/a%20b/c"⟩⟩ ∧
    (New.Strip "/a").rewritten ⟨"GET", ⟨"/a/a/b", ""⟩⟩ = ⟨"GET", ⟨"/a/b", ""⟩⟩ ∧
    (New.Strip "/a").rewritten ((New.Strip "/a").rewritten ⟨"GET", ⟨"/a/a/b", ""⟩⟩) =
      ⟨"GET", ⟨"/b", ""⟩⟩ ∧
    (New.Strips "/a b").rewritten ⟨"GET", ⟨"/c/a b", "/c/a%20b"⟩⟩ =
      ⟨"GET", ⟨"/c", "/c/a%20b"⟩⟩ ∧
    (New.Strips "/a").rewritten ⟨"GET", ⟨"/b/a/a", ""⟩⟩ = ⟨"GET", ⟨"/b/a", ""⟩⟩ ∧
    (New.Strips "/a").rewritten ((New.Strips "/a").rewritten ⟨"GET", ⟨"/b/a/a", ""⟩⟩) =
      ⟨"GET", ⟨"/b", ""⟩⟩ := by
  decide

/-! ## C17: the builder operations -/

/-- C17. Each builder operation, whose value here is the state of the handler it was called
on and returns, gives the same configuration applied twice with an argument as applied
once; and `Try(l)` makes the candidate list `l` whatever it was. -/
theorem builders_are_idempotent {FS : Type} (httpFS : FS → FileSystem) (h : Handler)
    (fs : Option FileSystem) (iofs : FS) (trys : List String)
    (notFound : Option (Request → SinkProg)) (rMod : Option (Request → Request))
    (p : String) :
    (h.HTTPFs fs trys).HTTPFs fs trys = h.HTTPFs fs trys ∧
    (h.Fs httpFS iofs trys).Fs httpFS iofs trys = h.Fs httpFS iofs trys ∧
    (h.Try trys).Try trys = h.Try trys ∧
    (h.NotFound notFound).NotFound notFound = h.NotFound notFound ∧
    (h.RMod rMod).RMod rMod = h.RMod rMod ∧
    (h.Strip p).Strip p = h.Strip p ∧
    (h.Strips p).Strips p = h.Strips p ∧
    (h.Try trys).trys = trys := by
  refine ⟨?_, rfl, rfl, rfl, rfl, rfl, rfl, rfl⟩
  unfold Handler.HTTPFs
  split <;> simp_all

/-! ## C18: classification of filesystem errors -/

theorem toHTTPError_eq_404_iff (h : Handler) (err : FsError) :
    h.toHTTPError err = 404 ↔ err.isNotExist = true := by
  unfold Handler.toHTTPError http.StatusNotFound http.StatusForbidden
    http.StatusInternalServerError
  cases err.isNotExist <;> cases err.isPermission <;> decide

theorem statusRespond_handled (env : Env) (h : Handler) (s s1 : State) (w w1 : Writer)
    (status : Int) (hres : h.statusRespond env s w status = some (false, s1, w1)) : False := by
  simp only [Handler.statusRespond] at hres
  split at hres
  · cases hres
  · simp at hres

/-- C18. `toHTTPError` gives 404 for an error that is not-exist, also when it is a permission
error too, else 403 for a permission error, else 500, and nothing else; with a filesystem
configured `tryFile` returns `false` exactly when the open fails, or the open succeeds and
the stat fails, with an error classified 404. -/
theorem toHTTPError_three_way_and_skip (env : Env) (h : Handler) (fs : FileSystem)
    (s : State) (w : Writer) (r : Request) (name : String) (err : FsError)
    (hfs : h.fs = some fs) :
    h.toHTTPError err =
      (if err.isNotExist then 404 else if err.isPermission then 403 else 500) ∧
    (h.toHTTPError err = 404 ∨ h.toHTTPError err = 403 ∨ h.toHTTPError err = 500) ∧
    (err.isNotExist = true → err.isPermission = true → h.toHTTPError err = 404) ∧
    ((∃ s1 w1, h.tryFile env s w r name = some (false, s1, w1)) ↔
      ((∃ e, fs name = .error e ∧ h.toHTTPError e = 404) ∨
        (∃ f e, fs name = .ok f ∧ f.Stat = .error e ∧ h.toHTTPError e = 404))) := by
  refine ⟨rfl, ?_, ?_, ?_, ?_⟩
  · unfold Handler.toHTTPError http.StatusNotFound http.StatusForbidden
      http.StatusInternalServerError
    cases err.isNotExist <;> cases err.isPermission <;> decide
  · intro hne _
    exact (toHTTPError_eq_404_iff h err).2 hne
  · rintro ⟨s1, w1, hres⟩
    unfold Handler.tryFile at hres
    rw [hfs] at hres
    dsimp only at hres
    cases hopen : fs name with
    | error e =>
      rw [hopen] at hres
      dsimp only at hres
      by_cases h404 : h.toHTTPError e = 404
      · exact Or.inl ⟨e, rfl, h404⟩
      · rw [if_neg h404] at hres
        exact (statusRespond_handled env h _ s1 w w1 _ hres).elim
    | ok f =>
      rw [hopen] at hres
      dsimp only at hres
      cases hstat : f.Stat with
      | error e =>
        rw [hstat] at hres
        dsimp only at hres
        by_cases h404 : h.toHTTPError e = 404
        · exact Or.inr ⟨f, e, rfl, hstat, h404⟩
        · rw [if_neg h404] at hres
          split at hres
          · cases hres
          · rename_i b s2 w2 hsr
            simp only [Option.some.injEq, Prod.mk.injEq] at hres
            rw [hres.1] at hsr
            exact (statusRespond_handled env h _ s2 w w2 _ hsr).elim
      | ok info =>
        rw [hstat] at hres
        dsimp only at hres
        split at hres
        · cases hres
        · simp at hres
  · intro hskip
    have hsk : Skipped fs name := by
      rcases hskip with ⟨e, he, h404⟩ | ⟨f, e, hf, he, h404⟩
      · exact Or.inl ⟨e, he, (toHTTPError_eq_404_iff h e).1 h404⟩
      · exact Or.inr ⟨f, e, hf, he, (toHTTPError_eq_404_iff h e).1 h404⟩
    exact ⟨_, _, tryFile_skipped env h fs hfs r name hsk s w⟩

/-- An error that is both not-exist and a permission error is classified 404, and the
candidate whose open fails with it is passed over; `/secret.html` on the locked filesystem
is not. -/
theorem toHTTPError_three_way_and_skip_witness :
    New.toHTTPError ⟨true, true, "both"⟩ = 404 ∧
    (∃ s1 w1, ({ New with fs := some emptyFS } : Handler).tryFile demoEnv freshState
      (.real freshSink) (getRequest "/foo") "/index.html" = some (false, s1, w1)) ∧
    ¬ (∃ s1 w1, ({ New with fs := some lockedFS } : Handler).tryFile demoEnv freshState
      (.real freshSink) (getRequest "/foo") "/secret.html" = some (false, s1, w1)) := by
  refine ⟨?_, ?_, ?_⟩
  · exact (toHTTPError_three_way_and_skip demoEnv ({ New with fs := some emptyFS } : Handler)
      emptyFS freshState (.real freshSink) (getRequest "/foo") "/index.html"
      ⟨true, true, "both"⟩ rfl).2.2.1 rfl rfl
  · exact (toHTTPError_three_way_and_skip demoEnv ({ New with fs := some emptyFS } : Handler)
      emptyFS freshState (.real freshSink) (getRequest "/foo") "/index.html" errNotExist
      rfl).2.2.2.2 (Or.inl ⟨errNotExist, rfl, rfl⟩)
  · intro hskip
    rcases (toHTTPError_three_way_and_skip demoEnv
      ({ New with fs := some lockedFS } : Handler) lockedFS freshState (.real freshSink)
      (getRequest "/foo") "/secret.html" errNotExist rfl).2.2.2.1 hskip with
      ⟨e, he, h404⟩ | ⟨f, e, hf, _, _⟩
    · have hee : e = errPermission := by
        have : (Except.error errPermission : Except FsError File) = .error e := he
        exact (Except.error.inj this).symm
      rw [hee] at h404
      revert h404
      decide
    · have : (Except.error errPermission : Except FsError File) = .ok f := hf
      cases this

/-! ## The pool is only changed by `wGet` and `wPut` -/

theorem statusRespond_pool (env : Env) (h : Handler) (s : State) (w : Writer) (status : Int)
    (b : Bool) (s1 : State) (w1 : Writer)
    (hres : h.statusRespond env s w status = some (b, s1, w1)) : s1.pool = s.pool := by
  simp only [Handler.statusRespond] at hres
  split at hres
  · cases hres
  · simp only [Option.some.injEq, Prod.mk.injEq] at hres
    rw [← hres.2.1]
    rfl

theorem tryFile_pool (env : Env) (h : Handler) (s : State) (w : Writer) (r : Request)
    (name : String) (b : Bool) (s1 : State) (w1 : Writer)
    (hres : h.tryFile env s w r name = some (b, s1, w1)) : s1.pool = s.pool := by
  unfold Handler.tryFile at hres
  split at hres
  · cases hres
  · split at hres
    · dsimp only at hres
      split at hres
      · simp only [Option.some.injEq, Prod.mk.injEq] at hres
        rw [← hres.2.1]
        rfl
      · exact (statusRespond_pool env h _ w _ b s1 w1 hres).trans rfl
    · dsimp only at hres
      split at hres
      · split at hres
        · simp only [Option.some.injEq, Prod.mk.injEq] at hres
          rw [← hres.2.1]
          rfl
        · split at hres
          · cases hres
          · rename_i b2 s2 w2 hsr
            simp only [Option.some.injEq, Prod.mk.injEq] at hres
            rw [← hres.2.1]
            exact (statusRespond_pool env h _ w _ b2 s2 w2 hsr).trans rfl
      · split at hres
        · cases hres
        · simp only [Option.some.injEq, Prod.mk.injEq] at hres
          rw [← hres.2.1]
          rfl

theorem tryFiles_pool (env : Env) (h : Handler) (r : Request) (names : List String)
    (s : State) (w : Writer) (b : Bool) (s1 : State) (w1 : Writer)
    (hres : h.tryFiles env r names s w = some (b, s1, w1)) : s1.pool = s.pool := by
  induction names generalizing s w with
  | nil =>
    simp only [Handler.tryFiles, Option.some.injEq, Prod.mk.injEq] at hres
    rw [← hres.2.1]
  | cons name rest ih =>
    simp only [Handler.tryFiles] at hres
    split at hres
    · cases hres
    · rename_i s2 w2 htry
      simp only [Option.some.injEq, Prod.mk.injEq] at hres
      rw [← hres.2.1]
      exact tryFile_pool env h s w r name true s2 w2 htry
    · rename_i s2 w2 htry
      rw [ih s2 w2 hres]
      exact tryFile_pool env h s w r name false s2 w2 htry

theorem serveNext_pool (env : Env) (h : Handler) (s : State) (w : Writer) (r : Request)
    (s1 : State) (w1 : Writer) (hres : h.serveNext env s w r = some (s1, w1)) :
    s1.pool = s.pool := by
  unfold Handler.serveNext at hres
  split at hres
  · cases hres
  · split at hres
    · cases hres
    · simp only [Option.some.injEq, Prod.mk.injEq] at hres
      rw [← hres.1]
      rfl

theorem deferredPut_pool (s : State) (n : no404w) (w : Writer) :
    (deferredPut s n w).1.pool = ⟨none, 0⟩ :: s.pool := rfl

theorem ServeHTTP_pool (env : Env) (h : Handler) (s : State) (w : Writer) (r : Request)
    (s1 : State) (w1 : Writer) (hres : h.ServeHTTP env s w r = some (s1, w1)) :
    ∃ w2, s1.pool = ⟨none, 0⟩ :: (wGet s.pool w2).2 := by
  simp only [Handler.ServeHTTP] at hres
  split at hres
  · cases hres
  · rename_i s2 w2 hfirst
    have hpool2 : s2.pool = s.pool := by
      split at hfirst
      · exact serveNext_pool env h s w _ s2 w2 hfirst
      · simp only [Option.some.injEq, Prod.mk.injEq] at hfirst
        rw [← hfirst.1]
    refine ⟨w2, ?_⟩
    rw [← hpool2]
    split at hres
    · split at hres
      · split at hres
        · cases hres
        · split at hres
          · cases hres
          · split at hres
            · cases hres
            · rename_i s3 w3 hwalk
              have h3 := tryFiles_pool env h _ _ _ _ true s3 w3 hwalk
              simp only [Option.some.injEq] at hres
              rw [← congrArg (fun p => p.1.pool) hres]
              simp only [deferredPut_pool, h3, State.log]
            · rename_i s3 w3 hwalk
              have h3 := tryFiles_pool env h _ _ _ _ false s3 w3 hwalk
              split at hres
              · cases hres
              · rename_i s4 w4 hnext
                have h4 := serveNext_pool env h s3 w3 _ s4 w4 hnext
                simp only [Option.some.injEq] at hres
                rw [← congrArg (fun p => p.1.pool) hres]
                simp only [deferredPut_pool, h4, h3, State.log]
      · simp only [Option.some.injEq] at hres
        rw [← congrArg (fun p => p.1.pool) hres]
        simp only [deferredPut_pool, State.log]
    · cases hres

/-! ## C13: the deferred release -/

theorem poolCalls_append (a b : List Event) :
    poolCalls (a ++ b) = poolCalls a ++ poolCalls b := by
  simp [poolCalls, List.filterMap_append]

theorem Writer.setHeader_isShadow (w : Writer) (hd : tryfiles.Header) :
    (w.setHeader hd).isShadow = w.isShadow := by
  cases w <;> rfl

theorem Writer.WriteHeader_isShadow (w w1 : Writer) (c : Int)
    (hres : w.WriteHeader c = some w1) : w1.isShadow = w.isShadow := by
  cases w with
  | nil => cases hres
  | real rs =>
    simp only [Writer.WriteHeader, Option.some.injEq] at hres
    rw [← hres]
    rfl
  | shadow n =>
    simp only [Writer.WriteHeader, Option.map_eq_some'] at hres
    obtain ⟨n1, _, hn⟩ := hres
    rw [← hn]
    rfl

theorem Writer.Write_isShadow (env : Env) (w w1 : Writer) (data : String) (res : WriteResult)
    (hres : w.Write env data = some (w1, res)) : w1.isShadow = w.isShadow := by
  cases w with
  | nil => cases hres
  | real rs =>
    simp only [Writer.Write, Option.some.injEq, Prod.mk.injEq] at hres
    rw [← hres.1]
    rfl
  | shadow n =>
    simp only [Writer.Write, Option.map_eq_some', Prod.mk.injEq] at hres
    obtain ⟨p, _, hp, _⟩ := hres
    rw [← hp]
    rfl

theorem run_isShadow (env : Env) (p : SinkProg) (w w1 : Writer)
    (hres : p.run env w = some w1) : w1.isShadow = w.isShadow := by
  induction p generalizing w with
  | ret =>
    simp only [SinkProg.run, Option.some.injEq] at hres
    rw [hres]
  | header f k ih =>
    simp only [SinkProg.run] at hres
    split at hres
    · cases hres
    · rw [ih _ _ hres, Writer.setHeader_isShadow]
  | writeHeader c k ih =>
    simp only [SinkProg.run] at hres
    split at hres
    · cases hres
    · rename_i w2 hw
      rw [ih _ hres, Writer.WriteHeader_isShadow w w2 c hw]
  | write d k ih =>
    simp only [SinkProg.run] at hres
    split at hres
    · cases hres
    · rename_i w2 res hw
      rw [ih _ _ hres, Writer.Write_isShadow env w w2 d res hw]

theorem statusRespond_poolCalls (env : Env) (h : Handler) (s : State) (w : Writer)
    (status : Int) (b : Bool) (s1 : State) (w1 : Writer)
    (hres : h.statusRespond env s w status = some (b, s1, w1)) :
    poolCalls s1.trace = poolCalls s.trace := by
  simp only [Handler.statusRespond] at hres
  split at hres
  · cases hres
  · simp only [Option.some.injEq, Prod.mk.injEq] at hres
    rw [← hres.2.1]
    simp [State.log, poolCalls_append, poolCalls]

theorem tryFile_poolCalls (env : Env) (h : Handler) (s : State) (w : Writer) (r : Request)
    (name : String) (b : Bool) (s1 : State) (w1 : Writer)
    (hres : h.tryFile env s w r name = some (b, s1, w1)) :
    poolCalls s1.trace = poolCalls s.trace := by
  unfold Handler.tryFile at hres
  split at hres
  · cases hres
  · split at hres
    · dsimp only at hres
      split at hres
      · simp only [Option.some.injEq, Prod.mk.injEq] at hres
        rw [← hres.2.1]
        simp [State.log, poolCalls_append, poolCalls]
      · rw [statusRespond_poolCalls env h _ w _ b s1 w1 hres]
        simp [State.log, poolCalls_append, poolCalls]
    · dsimp only at hres
      split at hres
      · split at hres
        · simp only [Option.some.injEq, Prod.mk.injEq] at hres
          rw [← hres.2.1]
          simp [State.log, poolCalls_append, poolCalls]
        · split at hres
          · cases hres
          · rename_i b2 s2 w2 hsr
            simp only [Option.some.injEq, Prod.mk.injEq] at hres
            rw [← hres.2.1]
            have h2 := statusRespond_poolCalls env h _ w _ b2 s2 w2 hsr
            simp only [State.log, poolCalls_append] at h2 ⊢
            rw [h2]
            simp [poolCalls]
      · split at hres
        · cases hres
        · simp only [Option.some.injEq, Prod.mk.injEq] at hres
          rw [← hres.2.1]
          simp [State.log, poolCalls_append, poolCalls]

theorem tryFiles_poolCalls (env : Env) (h : Handler) (r : Request) (names : List String)
    (s : State) (w : Writer) (b : Bool) (s1 : State) (w1 : Writer)
    (hres : h.tryFiles env r names s w = some (b, s1, w1)) :
    poolCalls s1.trace = poolCalls s.trace := by
  induction names generalizing s w with
  | nil =>
    simp only [Handler.tryFiles, Option.some.injEq, Prod.mk.injEq] at hres
    rw [← hres.2.1]
  | cons name rest ih =>
    simp only [Handler.tryFiles] at hres
    split at hres
    · cases hres
    · rename_i s2 w2 htry
      simp only [Option.some.injEq, Prod.mk.injEq] at hres
      rw [← hres.2.1]
      exact tryFile_poolCalls env h s w r name true s2 w2 htry
    · rename_i s2 w2 htry
      rw [ih s2 w2 hres]
      exact tryFile_poolCalls env h s w r name false s2 w2 htry

theorem serveNext_poolCalls (env : Env) (h : Handler) (s : State) (w : Writer) (r : Request)
    (s1 : State) (w1 : Writer) (hres : h.serveNext env s w r = some (s1, w1)) :
    poolCalls s1.trace = poolCalls s.trace ∧ w1.isShadow = w.isShadow := by
  unfold Handler.serveNext at hres
  split at hres
  · cases hres
  · split at hres
    · cases hres
    · rename_i w2 hrun
      simp only [Option.some.injEq, Prod.mk.injEq] at hres
      rw [← hres.1, ← hres.2]
      exact ⟨by simp [State.log, poolCalls_append, poolCalls], run_isShadow env _ w w2 hrun⟩

theorem wGet_pool (pool : Pool) (w : Writer) :
    (wGet pool w).2 = if w.isShadow then pool else pool.tail := by
  cases w <;> cases pool <;> rfl

theorem ServeHTTP_release (env : Env) (h : Handler) (s : State) (w : Writer) (r : Request)
    (s1 : State) (w1 : Writer) (hres : h.ServeHTTP env s w r = some (s1, w1)) :
    ∃ t, s1.trace = t ++ [.wPut] ∧
      poolCalls t = poolCalls s.trace ++ [some (!w.isShadow)] ∧
      s1.pool = ⟨none, 0⟩ :: (if w.isShadow then s.pool else s.pool.tail) := by
  simp only [Handler.ServeHTTP] at hres
  split at hres
  · cases hres
  · rename_i s2 w2 hfirst
    have hfacts : s2.pool = s.pool ∧ poolCalls s2.trace = poolCalls s.trace ∧
        w2.isShadow = w.isShadow := by
      split at hfirst
      · exact ⟨serveNext_pool env h s w _ s2 w2 hfirst,
          serveNext_poolCalls env h s w _ s2 w2 hfirst⟩
      · simp only [Option.some.injEq, Prod.mk.injEq] at hfirst
        rw [← hfirst.1, ← hfirst.2]
        exact ⟨rfl, rfl, rfl⟩
    obtain ⟨hpool2, hcalls2, hsh2⟩ := hfacts
    rw [← hsh2, ← hpool2, ← hcalls2, ← wGet_pool]
    split at hres
    · split at hres
      · split at hres
        · cases hres
        · split at hres
          · cases hres
          · split at hres
            · cases hres
            · rename_i s3 w3 hwalk
              have h3 := tryFiles_pool env h _ _ _ _ true s3 w3 hwalk
              have c3 := tryFiles_poolCalls env h _ _ _ _ true s3 w3 hwalk
              simp only [Option.some.injEq] at hres
              refine ⟨s3.trace, ?_, ?_, ?_⟩
              · rw [← congrArg (fun p => p.1.trace) hres]
                rfl
              · rw [c3]
                simp [State.log, poolCalls_append, poolCalls]
                cases w2 <;> rfl
              · rw [← congrArg (fun p => p.1.pool) hres]
                simp only [deferredPut_pool, h3, State.log]
            · rename_i s3 w3 hwalk
              have h3 := tryFiles_pool env h _ _ _ _ false s3 w3 hwalk
              have c3 := tryFiles_poolCalls env h _ _ _ _ false s3 w3 hwalk
              split at hres
              · cases hres
              · rename_i s4 w4 hnext
                have h4 := serveNext_pool env h s3 w3 _ s4 w4 hnext
                have c4 := (serveNext_poolCalls env h s3 w3 _ s4 w4 hnext).1
                simp only [Option.some.injEq] at hres
                refine ⟨s4.trace, ?_, ?_, ?_⟩
                · rw [← congrArg (fun p => p.1.trace) hres]
                  rfl
                · rw [c4, c3]
                  simp [State.log, poolCalls_append, poolCalls]
                  cases w2 <;> rfl
                · rw [← congrArg (fun p => p.1.pool) hres]
                  simp only [deferredPut_pool, h4, h3, State.log]
      · simp only [Option.some.injEq] at hres
        have ht := congrArg (fun p => p.1.trace) hres
        simp only [deferredPut, State.log] at ht
        refine ⟨_, ht.symm, ?_, ?_⟩
        · simp [poolCalls_append, poolCalls]
          cases w2 <;> rfl
        · rw [← congrArg (fun p => p.1.pool) hres]
          simp only [deferredPut_pool, State.log]
    · cases hres

/-- C13, as stated, fails: handed a sink that is already a shadow sink, `wGet` returns it as
it is and takes nothing from the pool, yet the deferred `wPut` still runs on it. After the
call the pool, empty before, holds an instance, and the sink handed in is that instance,
reset; this both when the primary attempt serves the file and when a candidate is served. -/
theorem wPut_on_sink_returned_as_is_counterexample :
    ((New.HTTPFs (some abFS) []).ServeHTTP demoEnv freshState (.shadow ⟨some freshSink, 0⟩)
        (getRequest "/a.html")).map (fun p => (p.1.pool, p.1.trace, p.2)) =
      some ([⟨none, 0⟩],
        [.wGet false, .FileServer ⟨some freshSink, 0⟩ (getRequest "/a.html"), .wPut],
        .shadow ⟨none, 0⟩) ∧
    ((New.HTTPFs (some indexFS) []).ServeHTTP demoEnv freshState (.shadow ⟨some freshSink, 0⟩)
        (getRequest "/foo")).map (fun p => (p.1.pool, p.2)) =
      some ([⟨none, 0⟩], .shadow ⟨none, 0⟩) :=
  ⟨rfl, rfl⟩

/-- C13, amended. Every `ServeHTTP` call that returns, on whichever path (primary attempt
answered, candidate served, error answered, terminal handler called), makes exactly two pool
calls: one `wGet` and then one `wPut`, the `wPut` being its last step. The `wGet` takes a new
instance from the pool exactly when the sink handed in is not a shadow sink, and the pool
then holds one reset instance in place of the one taken; when the sink handed in is a shadow
sink, `wGet` returns it as it is and the `wPut` still runs, adding a reset instance to the
pool. -/
theorem wPut_runs_once_whatever_wGet_returned (env : Env) (h : Handler) (s : State)
    (w : Writer) (r : Request) (s1 : State) (w1 : Writer)
    (hres : h.ServeHTTP env s w r = some (s1, w1)) :
    (∃ t, s1.trace = t ++ [.wPut]) ∧
    poolCalls s1.trace = poolCalls s.trace ++ [some (!w.isShadow), none] ∧
    s1.pool = ⟨none, 0⟩ :: (if w.isShadow then s.pool else s.pool.tail) := by
  obtain ⟨t, htrace, hcalls, hpool⟩ := ServeHTTP_release env h s w r s1 w1 hres
  refine ⟨⟨t, htrace⟩, ?_, hpool⟩
  rw [htrace, poolCalls_append, hcalls]
  simp [poolCalls]

/-- A request answered on a real sink from a pool of two reset instances takes one, releases
once, and leaves two reset instances; one answered by the terminal handler from an empty
pool does the same and leaves one. -/
theorem wPut_runs_once_whatever_wGet_returned_witness :
    (∃ s1 w1,
      (New.HTTPFs (some abFS) []).ServeHTTP demoEnv ⟨[⟨none, 0⟩, ⟨none, 0⟩], []⟩
        (.real freshSink) (getRequest "/a.html") = some (s1, w1) ∧
      poolCalls s1.trace = [some true, none] ∧ s1.pool = [⟨none, 0⟩, ⟨none, 0⟩]) ∧
    (∃ s1 w1,
      (New.HTTPFs (some emptyFS) []).ServeHTTP demoEnv freshState (.real freshSink)
        (getRequest "/foo") = some (s1, w1) ∧
      poolCalls s1.trace = [some true, none] ∧ s1.pool = [⟨none, 0⟩]) := by
  constructor
  · have hres : (New.HTTPFs (some abFS) []).ServeHTTP demoEnv ⟨[⟨none, 0⟩, ⟨none, 0⟩], []⟩
        (.real freshSink) (getRequest "/a.html") =
        some (⟨[⟨none, 0⟩, ⟨none, 0⟩],
            [.wGet true, .FileServer ⟨some freshSink, 0⟩ (getRequest "/a.html"), .wPut]⟩,
          .real ⟨⟨[("Content-Type", ["text/html; charset=utf-8"])]⟩,
            [.WriteHeader 200, .Write "<a/>"]⟩) := rfl
    obtain ⟨_, hcalls, hpool⟩ := wPut_runs_once_whatever_wGet_returned _ _ _ _ _ _ _ hres
    exact ⟨_, _, hres, hcalls, hpool⟩
  · have hres : (New.HTTPFs (some emptyFS) []).ServeHTTP demoEnv freshState (.real freshSink)
        (getRequest "/foo") =
        some (⟨[⟨none, 0⟩],
            [.wGet true, .FileServer ⟨some freshSink, 0⟩ (getRequest "/foo"),
              .HeaderDel "Content-Type", .HeaderDel "X-Content-Type-Handler",
              .Open "/index.html",
              .next (.real ⟨⟨[("X-Content-Type-Options", ["nosniff"])]⟩, []⟩)
                (getRequest "/foo"),
              .wPut]⟩,
          .real ⟨⟨[("Content-Type", ["text/plain; charset=utf-8"]),
            ("X-Content-Type-Options", ["nosniff"])]⟩,
            [.WriteHeader 404, .Write "404 page not found\n"]⟩) := rfl
    obtain ⟨_, hcalls, hpool⟩ := wPut_runs_once_whatever_wGet_returned _ _ _ _ _ _ _ hres
    exact ⟨_, _, hres, hcalls, hpool⟩

/-! ## C14 to C16: the pool -/

theorem Pool.Reset_cons (pool : Pool) (hreset : pool.Reset) :
    Pool.Reset (⟨none, 0⟩ :: pool) := by
  intro n hn
  rcases List.mem_cons.1 hn with h | h
  · exact h
  · exact hreset n h

theorem Pool.Reset_Get (pool : Pool) (hreset : pool.Reset) :
    pool.Get.1 = ⟨none, 0⟩ ∧ pool.Get.2.Reset := by
  cases pool with
  | nil => exact ⟨rfl, fun n hn => by cases hn⟩
  | cons n rest =>
    exact ⟨hreset n (by simp), fun m hm => hreset m (List.mem_cons_of_mem n hm)⟩

theorem wGet_Reset (pool : Pool) (hreset : pool.Reset) (w : Writer) :
    (wGet pool w).2.Reset := by
  cases w with
  | nil => exact (Pool.Reset_Get pool hreset).2
  | real rs => exact (Pool.Reset_Get pool hreset).2
  | shadow n => exact hreset

theorem InitPool.loop_Reset (i : Nat) (pool : Pool) (hreset : pool.Reset) :
    (InitPool.loop i pool).Reset := by
  induction i generalizing pool with
  | zero => exact hreset
  | succ i ih => exact ih _ (Pool.Reset_cons _ (wGet_Reset pool hreset .nil))

theorem InitPool.loop_single (i : Nat) :
    InitPool.loop i [⟨none, 0⟩] = [⟨none, 0⟩] := by
  induction i with
  | zero => rfl
  | succ i ih => exact ih

/-- C14. `wGet` handed a shadow sink returns that sink and the pool as it was; handed any
other sink, with every pooled instance reset, it returns an instance taken from the pool (a
new one when the pool is empty) that embeds the sink and has the unset status 0. -/
theorem wGet_returns_given_shadow_or_pooled (pool : Pool) (hreset : pool.Reset) :
    (∀ n, wGet pool (.shadow n) = (n, pool)) ∧
    (∀ rs, wGet pool (.real rs) = (⟨some rs, 0⟩, pool.tail)) ∧
    wGet pool .nil = (⟨none, 0⟩, pool.tail) := by
  obtain ⟨hget, _⟩ := Pool.Reset_Get pool hreset
  refine ⟨fun n => rfl, fun rs => ?_, ?_⟩
  · cases pool with
    | nil => rfl
    | cons n rest =>
      have hn : n = ⟨none, 0⟩ := hget
      subst hn
      rfl
  · cases pool with
    | nil => rfl
    | cons n rest =>
      have hn : n = ⟨none, 0⟩ := hget
      subst hn
      rfl

/-- From a pool of two reset instances `wGet` on a real sink takes one and binds it; on a
shadow sink it takes none. -/
theorem wGet_returns_given_shadow_or_pooled_witness :
    wGet [⟨none, 0⟩, ⟨none, 0⟩] (.real freshSink) = (⟨some freshSink, 0⟩, [⟨none, 0⟩]) ∧
    wGet [⟨none, 0⟩, ⟨none, 0⟩] (.shadow ⟨some freshSink, 404⟩) =
      (⟨some freshSink, 404⟩, [⟨none, 0⟩, ⟨none, 0⟩]) :=
  ⟨(wGet_returns_given_shadow_or_pooled [⟨none, 0⟩, ⟨none, 0⟩] (by simp [Pool.Reset])).2.1
      freshSink,
   (wGet_returns_given_shadow_or_pooled [⟨none, 0⟩, ⟨none, 0⟩] (by simp [Pool.Reset])).1
      ⟨some freshSink, 404⟩⟩

/-- C15. In a pool whose instances all have no embedded sink and status 0: `wGet` leaves
such a pool; `wPut` puts its argument back with the embedded sink nil and the status 0,
whatever they were, and leaves such a pool; `InitPool` leaves such a pool; and every
`ServeHTTP` call that returns leaves such a pool. -/
theorem pool_instances_stay_reset (pool : Pool) (hreset : pool.Reset) :
    (∀ w, (wGet pool w).2.Reset) ∧
    (∀ n, wPut pool n = ⟨none, 0⟩ :: pool ∧ (wPut pool n).Reset) ∧
    (∀ size, (InitPool pool size).Reset) ∧
    (∀ env h trace w r s1 w1,
      Handler.ServeHTTP env h ⟨pool, trace⟩ w r = some (s1, w1) → s1.pool.Reset) := by
  refine ⟨wGet_Reset pool hreset, fun n => ⟨rfl, Pool.Reset_cons pool hreset⟩,
    fun size => InitPool.loop_Reset _ pool hreset, ?_⟩
  intro env h trace w r s1 w1 hres
  obtain ⟨w2, hpool⟩ := ServeHTTP_pool env h ⟨pool, trace⟩ w r s1 w1 hres
  rw [hpool]
  exact Pool.Reset_cons _ (wGet_Reset pool hreset w2)

/-- Into a pool of one reset instance `wPut` returns a sink that recorded 404 as a reset
instance; `InitPool(2)` and a request that ends in 404 leave the pool reset. -/
theorem pool_instances_stay_reset_witness :
    wPut [⟨none, 0⟩] ⟨some freshSink, 404⟩ = [⟨none, 0⟩, ⟨none, 0⟩] ∧
    (InitPool [⟨none, 0⟩] 2).Reset ∧
    (∀ s1 w1,
      (New.HTTPFs (some emptyFS) []).ServeHTTP demoEnv ⟨[⟨none, 0⟩], []⟩ (.real freshSink)
        (getRequest "/foo") = some (s1, w1) → s1.pool.Reset) :=
  ⟨((pool_instances_stay_reset [⟨none, 0⟩] (by simp [Pool.Reset])).2.1
      ⟨some freshSink, 404⟩).1,
   (pool_instances_stay_reset [⟨none, 0⟩] (by simp [Pool.Reset])).2.2.1 2,
   fun s1 w1 => (pool_instances_stay_reset [⟨none, 0⟩] (by simp [Pool.Reset])).2.2.2
      demoEnv (New.HTTPFs (some emptyFS) []) [] (.real freshSink) (getRequest "/foo") s1 w1⟩

/-- C16. On an empty pool `InitPool` with any size of at least 1 leaves one instance, not
`size` of them: each round takes back the instance the round before put in. -/
theorem InitPool_leaves_one_instance (k : Nat) :
    InitPool [] ((k : Int) + 1) = [⟨none, 0⟩] ∧
    InitPool [] 3 = [⟨none, 0⟩] ∧ (InitPool [] 3).length = 1 := by
  refine ⟨?_, rfl, rfl⟩
  have hk : ((k : Int) + 1).toNat = k + 1 := by omega
  unfold InitPool
  rw [hk]
  exact InitPool.loop_single k

end tryfiles
